import Mathlib

/-!
# Condition store and patch helper of the OpenShift AI Lightspeed operator

A shallow embedding of `pkg/common/condition` (`conditions.go`, `funcs.go`)
and of `pkg/common/helper` (`helper.go`), with theorems about the condition
list operations, the aggregation algorithm `Mirror`, the change set of
`SetAfter` and the writes of `PatchInstance`.

Conventions of the embedding:

* a Go slice is a `List`; a method with a pointer receiver that mutates the
  slice returns the new slice;
* `RestoreLastTransitionTimes` takes two pointers to slices, which may share
  elements; next to the function on two lists it is embedded as a function on
  a memory of arrays (`RestoreLastTransitionTimesPtr`), where a slice is a
  window of an array;
* `Get` returns a pointer into the slice, modelled as an `Option` holding the
  element it points to;
* `metav1.Now()` reads the clock; every function calling it takes the
  timestamp read as the extra argument `now`;
* the iteration order of a Go map and the order `sort.Slice` gives to
  elements that compare equal are not determined by the program; they are
  modelled by a relation describing every admissible outcome, next to one
  executable outcome.
-/

set_option autoImplicit false

namespace corev1

/-- Modelled from the spec: the declaration of the status type
(`corev1.ConditionStatus`, of the Kubernetes API) is not among the sources;
the data model gives a status as one of True, False, Unknown, the three
constants `funcs.go` uses. -/
inductive ConditionStatus where
  | ConditionTrue
  | ConditionFalse
  | ConditionUnknown
deriving DecidableEq, Repr

/-- The conversion `string(cond.Status)`: the name of the status. -/
def ConditionStatus.toString : ConditionStatus → String
  | ConditionTrue => "True"
  | ConditionFalse => "False"
  | ConditionUnknown => "Unknown"

end corev1

namespace condition

open corev1 corev1.ConditionStatus

/-- Modelled from the spec: the declaration of `Type` is not among the
sources; a condition type is a string token (`ReadyCondition Type = "Ready"`). -/
abbrev ConditionType := String

/-- Modelled from the spec: the declaration of `Reason` is not among the
sources; a reason is a short machine token, a string
(`ReadyReason Reason = "Ready"`). -/
abbrev Reason := String

/-- Modelled from the spec: the declaration of `Severity` is not among the
sources; `funcs.go` converts it with `string(cond.Severity)` and uses it as a
map key, so it is a string type. -/
abbrev Severity := String

/-- The type `metav1.Time` of `LastTransitionTime`, as a number of ticks. -/
abbrev Time := Nat

/-- Modelled from the spec: the declaration of the severity constants is not
among the sources; the data model names the severities Error, Warning, Info
and None. Only the fact that the four are pairwise distinct is used below (Go
rejects a map literal with a repeated constant key). -/
def SeverityError : Severity := "Error"

/-- Modelled from the spec: see `SeverityError`. -/
def SeverityWarning : Severity := "Warning"

/-- Modelled from the spec: see `SeverityError`. -/
def SeverityInfo : Severity := "Info"

/-- Modelled from the spec: see `SeverityError`; the severity of a condition
that carries none is the empty string. -/
def SeverityNone : Severity := ""

/-- Modelled from the spec: the declaration of the record `Condition` is not
among the sources; its fields are the ones `funcs.go` reads and writes. -/
structure Condition where
  Type_ : ConditionType
  Status : ConditionStatus
  Severity : Severity
  LastTransitionTime : Time
  Reason : Reason
  Message : String
deriving DecidableEq, Repr

/-- Modelled from the spec: the declaration of `Conditions` is not among the
sources; it is the slice type `[]Condition`. -/
abbrev Conditions := List Condition

/-- Modelled from the spec: the declaration of `conditionGroup` is not among
the sources; its fields are the ones `groupConditions` and `Mirror` use. -/
structure conditionGroup where
  status : ConditionStatus
  severity : Severity
  conditions : List Condition
deriving DecidableEq, Repr

/-- A value passed for a variadic `...interface{}` parameter. -/
inductive MessageArg where
  | str (s : String)
  | int (n : Int)
deriving DecidableEq, Repr

/-! ## conditions.go -/

def ReadyCondition : ConditionType := "Ready"

def RequestedReason : Reason := "Requested"

def InitReason : Reason := "Init"

def ReadyReason : Reason := "Ready"

def ErrorReason : Reason := "Error"

def ReadyMessage : String := "Setup complete"

def ReadyInitMessage : String := "Setup not started"

def DeploymentReadyErrorMessage : String := "Deployment not ready: %s"

/-! ## funcs.go -/

def UnknownCondition (t : ConditionType) (reason : Reason) (message : String) (now : Time) :
    Condition :=
  { Type_ := t
    Status := ConditionUnknown
    Severity := SeverityNone
    LastTransitionTime := now
    Reason := reason
    Message := message }

def TrueCondition (t : ConditionType) (message : String) (now : Time) : Condition :=
  { Type_ := t
    Status := ConditionTrue
    Severity := SeverityNone
    LastTransitionTime := now
    Reason := ReadyReason
    Message := message }

/-- Both branches of the source return `messageFormat`. -/
def getMessage (messageFormat : String) (messageArgs : List MessageArg) : String :=
  if messageArgs.length = 0 then
    messageFormat
  else
    messageFormat

def FalseCondition (t : ConditionType) (reason : Reason) (severity : Severity)
    (messageFormat : String) (messageArgs : List MessageArg) (now : Time) : Condition :=
  { Type_ := t
    Status := ConditionFalse
    Severity := severity
    LastTransitionTime := now
    Reason := reason
    Message := getMessage messageFormat messageArgs }

/-- The loop of `Set`: the first entry of the same type is overwritten, and
without one the condition is appended. -/
def Conditions.Set : Conditions → Condition → Conditions
  | [], condition => [condition]
  | existing :: rest, condition =>
    if existing.Type_ = condition.Type_ then
      condition :: rest
    else
      existing :: Conditions.Set rest condition

/-- The loop of `Get`: the first entry of type `t`, `none` for `nil`. -/
def Conditions.Get : Conditions → ConditionType → Option Condition
  | [], _ => none
  | c0 :: rest, t => if c0.Type_ = t then some c0 else Conditions.Get rest t

def Conditions.MarkTrue (c : Conditions) (t : ConditionType) (message : String) (now : Time) :
    Conditions :=
  Conditions.Set c (TrueCondition t message now)

def Conditions.MarkFalse (c : Conditions) (t : ConditionType) (reason : Reason)
    (severity : Severity) (message : String) (messageArgs : List MessageArg) (now : Time) :
    Conditions :=
  Conditions.Set c (FalseCondition t reason severity message messageArgs now)

def Conditions.MarkUnknown (c : Conditions) (t : ConditionType) (reason : Reason)
    (message : String) (now : Time) : Conditions :=
  Conditions.Set c (UnknownCondition t reason message now)

/-- The key of a condition in the map of `groupConditions`:
`string(cond.Status) + string(cond.Severity)`. -/
def groupKey (cond : Condition) : String :=
  cond.Status.toString ++ cond.Severity

/-- One pass of the body of the grouping loop on the map, kept as the list of
its entries in the order the keys were first inserted: a new key gets a group
with the status and severity of the condition, and the condition is appended
to the group of its key. -/
def addToGroups : List (String × conditionGroup) → Condition → List (String × conditionGroup)
  | [], cond =>
    [(groupKey cond, { status := cond.Status, severity := cond.Severity, conditions := [cond] })]
  | (k, g) :: rest, cond =>
    if k = groupKey cond then
      (k, { g with conditions := g.conditions ++ [cond] }) :: rest
    else
      (k, g) :: addToGroups rest cond

/-- The map built by the first loop of `groupConditions`; conditions of the
type `ReadyCondition` are skipped. -/
def groupConditionsMap (c : Conditions) : List (String × conditionGroup) :=
  c.foldl (fun groups cond => if cond.Type_ = ReadyCondition then groups
    else addToGroups groups cond) []

/-- The map `severityOrder`; a severity that is not a key of the map reads
as the zero value 0. -/
def severityOrder (s : Severity) : Nat :=
  if s = SeverityError then 0
  else if s = SeverityWarning then 1
  else if s = SeverityInfo then 2
  else if s = SeverityNone then 3
  else 0

/-- The outcomes of `groupConditions`: the groups of the map, taken in the
order the iteration over the map gives, then sorted by `sort.Slice` with
`less i j` being `severityOrder[i] < severityOrder[j]`: some arrangement of
the groups in which no group is `less` than an earlier one. -/
def IsGroupConditionsResult (c : Conditions) (result : List conditionGroup) : Prop :=
  result.Perm ((groupConditionsMap c).map Prod.snd) ∧
    result.Pairwise (fun a b => ¬ severityOrder b.severity < severityOrder a.severity)

instance IsGroupConditionsResult.decidable (c : Conditions) (result : List conditionGroup) :
    Decidable (IsGroupConditionsResult c result) :=
  inferInstanceAs (Decidable (_ ∧ _))

/-- One execution of `groupConditions`: the map is iterated in the order of
insertion and the sort keeps groups of equal rank in that order. -/
def Conditions.groupConditions (c : Conditions) : List conditionGroup :=
  ((groupConditionsMap c).map Prod.snd).insertionSort
    (fun a b => severityOrder a.severity ≤ severityOrder b.severity)

/-- One loop of `Mirror` over the groups: the first member of the first group
that satisfies `p` and has a member. -/
def firstRepresentative (p : conditionGroup → Bool) : List conditionGroup → Option Condition
  | [] => none
  | g :: rest =>
    if p g then
      match g.conditions with
      | c0 :: _ => some c0
      | [] => firstRepresentative p rest
    else
      firstRepresentative p rest

/-- The body of `Mirror` once `groupConditions` has returned `groups`. -/
def mirrorOf (groups : List conditionGroup) (t : ConditionType) (now : Time) : Condition :=
  match firstRepresentative
      (fun g => g.status = ConditionFalse ∧ g.severity = SeverityError) groups with
  | some c0 =>
    { Type_ := t
      Status := ConditionFalse
      Severity := SeverityError
      LastTransitionTime := now
      Reason := c0.Reason
      Message := c0.Message }
  | none =>
    match firstRepresentative
        (fun g => g.status = ConditionFalse ∧ g.severity = SeverityWarning) groups with
    | some c0 =>
      { Type_ := t
        Status := ConditionFalse
        Severity := SeverityWarning
        LastTransitionTime := now
        Reason := c0.Reason
        Message := c0.Message }
    | none =>
      match firstRepresentative (fun g => g.status = ConditionUnknown) groups with
      | some c0 =>
        { Type_ := t
          Status := ConditionUnknown
          Severity := SeverityNone
          LastTransitionTime := now
          Reason := c0.Reason
          Message := c0.Message }
      | none => TrueCondition t ReadyMessage now

/-- The outcomes of `Mirror`: the body run on an outcome of `groupConditions`. -/
def IsMirrorResult (c : Conditions) (t : ConditionType) (now : Time) (r : Condition) : Prop :=
  ∃ groups, IsGroupConditionsResult c groups ∧ r = mirrorOf groups t now

/-- One execution of `Mirror`, on the execution `groupConditions`. -/
def Conditions.Mirror (c : Conditions) (t : ConditionType) (now : Time) : Condition :=
  mirrorOf (Conditions.groupConditions c) t now

/-- The conditions `groupConditions` and `AllSubConditionIsTrue` look at: all
but the ones of the type `ReadyCondition`, in list order. -/
def subConditions (c : Conditions) : List Condition :=
  c.filter (fun x => x.Type_ ≠ ReadyCondition)

/-- The state of the map of `groupConditions` once the conditions `seen` have
been added: keys are not repeated, every entry is stored under the key of its
status and severity and holds, in list order, the conditions seen with that
status and severity, at least one; and every condition seen has its key in
the map. -/
def GroupsInv (seen : List Condition) (m : List (String × conditionGroup)) : Prop :=
  (m.map Prod.fst).Nodup ∧
  (∀ p ∈ m, p.1 = p.2.status.toString ++ p.2.severity ∧
      p.2.conditions
        = seen.filter (fun x => x.Status = p.2.status ∧ x.Severity = p.2.severity) ∧
      p.2.conditions ≠ []) ∧
  (∀ x ∈ seen, groupKey x ∈ m.map Prod.fst)

/-- The representative of the Unknown conditions as the specification names
it: the first condition in list order, among those other than Ready, with
status Unknown and the severity that comes first in the ranking Error,
Warning, Info, None among the severities the Unknown conditions carry. -/
def unknownRepresentative (c : Conditions) : Option Condition :=
  [SeverityError, SeverityWarning, SeverityInfo, SeverityNone].findSome? (fun v =>
    c.find? (fun x => x.Type_ ≠ ReadyCondition ∧ x.Status = ConditionUnknown ∧ x.Severity = v))

/-- The list of the precedence scenario: A is False/Warning, B is False/Error
and C is Unknown. -/
def precedenceExample : Conditions :=
  [ { Type_ := "A", Status := ConditionFalse, Severity := SeverityWarning,
      LastTransitionTime := 1, Reason := "ReasonA", Message := "message of A" },
    { Type_ := "B", Status := ConditionFalse, Severity := SeverityError,
      LastTransitionTime := 2, Reason := "ReasonB", Message := "message of B" },
    { Type_ := "C", Status := ConditionUnknown, Severity := SeverityNone,
      LastTransitionTime := 3, Reason := "ReasonC", Message := "message of C" } ]

/-- A list with a False/Warning condition after an Unknown one and no
False/Error condition. -/
def warningExample : Conditions :=
  [ { Type_ := "C", Status := ConditionUnknown, Severity := SeverityNone,
      LastTransitionTime := 3, Reason := "ReasonC", Message := "message of C" },
    { Type_ := "A", Status := ConditionFalse, Severity := SeverityWarning,
      LastTransitionTime := 1, Reason := "ReasonA", Message := "message of A" },
    { Type_ := "D", Status := ConditionTrue, Severity := SeverityNone,
      LastTransitionTime := 4, Reason := "Ready", Message := "message of D" } ]

/-- A list whose Unknown conditions carry the severities None, Info and Info,
in this order, next to a True condition and a False/Info one. -/
def unknownExample : Conditions :=
  [ { Type_ := "A", Status := ConditionUnknown, Severity := SeverityNone,
      LastTransitionTime := 1, Reason := "ReasonA", Message := "message of A" },
    { Type_ := "B", Status := ConditionTrue, Severity := SeverityNone,
      LastTransitionTime := 2, Reason := "Ready", Message := "message of B" },
    { Type_ := "C", Status := ConditionUnknown, Severity := SeverityInfo,
      LastTransitionTime := 3, Reason := "ReasonC", Message := "message of C" },
    { Type_ := "D", Status := ConditionFalse, Severity := SeverityInfo,
      LastTransitionTime := 4, Reason := "ReasonD", Message := "message of D" },
    { Type_ := "E", Status := ConditionUnknown, Severity := SeverityInfo,
      LastTransitionTime := 5, Reason := "ReasonE", Message := "message of E" } ]

/-- The list of the default scenario: A is True and B is False with severity
None. -/
def defaultExample : Conditions :=
  [ { Type_ := "A", Status := ConditionTrue, Severity := SeverityNone,
      LastTransitionTime := 1, Reason := "Ready", Message := "message of A" },
    { Type_ := "B", Status := ConditionFalse, Severity := SeverityNone,
      LastTransitionTime := 2, Reason := "ReasonB", Message := "message of B" } ]

/-- The invariant of the data model: at most one condition per type. -/
def UniqueTypes (c : Conditions) : Prop :=
  (c.map (fun x => x.Type_)).Nodup

instance UniqueTypes.decidable (c : Conditions) : Decidable (UniqueTypes c) :=
  inferInstanceAs (Decidable ((c.map (fun (x : Condition) => x.Type_)).Nodup))

/-- A call of one of the operations that change a condition list, with its
arguments and the timestamp the call reads. -/
inductive Operation where
  | set (condition : Condition)
  | markTrue (t : ConditionType) (message : String) (now : Time)
  | markFalse (t : ConditionType) (reason : Reason) (severity : Severity) (message : String)
      (messageArgs : List MessageArg) (now : Time)
  | markUnknown (t : ConditionType) (reason : Reason) (message : String) (now : Time)

/-- The list after the call `op` on the list `c`. -/
def Operation.run (c : Conditions) : Operation → Conditions
  | Operation.set condition => Conditions.Set c condition
  | Operation.markTrue t message now => Conditions.MarkTrue c t message now
  | Operation.markFalse t reason severity message messageArgs now =>
    Conditions.MarkFalse c t reason severity message messageArgs now
  | Operation.markUnknown t reason message now => Conditions.MarkUnknown c t reason message now

/-- `IsTrue`: false without a condition of the type, else whether the status
of the condition `Get` returns is True. -/
def Conditions.IsTrue (c : Conditions) (t : ConditionType) : Bool :=
  match Conditions.Get c t with
  | none => false
  | some cond => cond.Status = ConditionTrue

/-- `IsFalse`: false without a condition of the type. -/
def Conditions.IsFalse (c : Conditions) (t : ConditionType) : Bool :=
  match Conditions.Get c t with
  | none => false
  | some cond => cond.Status = ConditionFalse

/-- `IsUnknown`: true without a condition of the type. -/
def Conditions.IsUnknown (c : Conditions) (t : ConditionType) : Bool :=
  match Conditions.Get c t with
  | none => true
  | some cond => cond.Status = ConditionUnknown

/-- The loop of `AllSubConditionIsTrue`: conditions of the type
`ReadyCondition` are skipped, the first other condition that is not True
ends the loop with false. -/
def Conditions.AllSubConditionIsTrue : Conditions → Bool
  | [] => true
  | cond :: rest =>
    if cond.Type_ = ReadyCondition then
      Conditions.AllSubConditionIsTrue rest
    else if cond.Status ≠ ConditionTrue then
      false
    else
      Conditions.AllSubConditionIsTrue rest

/-- The inner loop of `RestoreLastTransitionTimes` for one index: `c` is the
copy of the condition the outer loop took, `current` the entry of the slice,
which receives the time of every saved condition with the type and status of
`c`, one after the other. -/
def restoreEntry (c : Condition) : List Condition → Condition → Condition
  | [], current => current
  | saved :: rest, current =>
    if c.Type_ = saved.Type_ ∧ c.Status = saved.Status then
      restoreEntry c rest { current with LastTransitionTime := saved.LastTransitionTime }
    else
      restoreEntry c rest current

/-- The function `RestoreLastTransitionTimes` on two lists that share no
element: the list of the current conditions after the call; `none` is the nil
pointer for the saved conditions. The call on slices in memory, which may
share elements, is `RestoreLastTransitionTimesPtr`. -/
def RestoreLastTransitionTimes (conditions : Conditions) (savedConditions : Option Conditions) :
    Conditions :=
  match savedConditions with
  | none => conditions
  | some saved => conditions.map (fun c => restoreEntry c saved c)

/-- The saved list and the two current lists of the restoration scenario: A is
True at time 10 in `savedExample`, True at time 20 in `restoredExample` and
False at time 20 in `changedExample`. -/
def savedExample : Conditions :=
  [ { Type_ := "A", Status := ConditionTrue, Severity := SeverityNone,
      LastTransitionTime := 10, Reason := "Ready", Message := "message of A" } ]

/-- See `savedExample`. -/
def restoredExample : Conditions :=
  [ { Type_ := "A", Status := ConditionTrue, Severity := SeverityNone,
      LastTransitionTime := 20, Reason := "Ready", Message := "message of A" } ]

/-- See `savedExample`. -/
def changedExample : Conditions :=
  [ { Type_ := "A", Status := ConditionFalse, Severity := SeverityError,
      LastTransitionTime := 20, Reason := "Error", Message := "A failed" } ]

/-- A list whose one condition, of a type other than Ready, is False with
severity Info. -/
def infoExample : Conditions :=
  [ { Type_ := "A", Status := ConditionFalse, Severity := SeverityInfo,
      LastTransitionTime := 1, Reason := "ReasonA", Message := "message of A" } ]

/-- A saved list with two entries of type A and status True, at the times 10
and 30, and one of type B. -/
def savedTwiceExample : Conditions :=
  [ { Type_ := "A", Status := ConditionTrue, Severity := SeverityNone,
      LastTransitionTime := 10, Reason := "Ready", Message := "saved message of A" },
    { Type_ := "B", Status := ConditionUnknown, Severity := SeverityNone,
      LastTransitionTime := 15, Reason := "Init", Message := "saved message of B" },
    { Type_ := "A", Status := ConditionTrue, Severity := SeverityWarning,
      LastTransitionTime := 30, Reason := "Other", Message := "later message of A" } ]

/-- The address of an array of conditions in memory. -/
abbrev Address := Nat

/-- The memory a call works on: the arrays of conditions, by address. -/
abbrev Memory := Address → List Condition

/-- A slice value `[]Condition`: the array that holds its elements, the index
of its first element in that array, and its length. Two slices can share
elements: the same slice taken twice, or two windows of one array. A slice of
the program lies within its array; an index outside the array reads nothing. -/
structure Slice where
  array : Address
  offset : Nat
  len : Nat
deriving DecidableEq, Repr

/-- The list of the elements of a slice in the memory `m`. -/
def Slice.elems (s : Slice) (m : Memory) : Conditions :=
  ((m s.array).drop s.offset).take s.len

/-- The read `s[i]`. -/
def Slice.get? (s : Slice) (m : Memory) (i : Nat) : Option Condition :=
  (s.elems m)[i]?

/-- The assignment `s[i].LastTransitionTime = t`, for an index `i` of `s`. -/
def Slice.setTime (s : Slice) (m : Memory) (i : Nat) (t : Time) : Memory :=
  Function.update m s.array
    ((m s.array).modify (fun c => { c with LastTransitionTime := t }) (s.offset + i))

/-- Two slices that share no element: they lie in two arrays or in two
windows of one array that do not overlap. -/
def Slice.Apart (s t : Slice) : Prop :=
  s.array ≠ t.array ∨ s.offset + s.len ≤ t.offset ∨ t.offset + t.len ≤ s.offset

/-- One iteration of the inner loop of `RestoreLastTransitionTimes`, on the
memory: `c` is the copy of `(*conditions)[i]` the outer loop took, `j` the
index of the saved condition, which is read from the memory as it is now. -/
def restoreInner (c : Condition) (conditions savedConditions : Slice) (i : Nat)
    (m : Memory) (j : Nat) : Memory :=
  match savedConditions.get? m j with
  | none => m
  | some saved =>
    if c.Type_ = saved.Type_ ∧ c.Status = saved.Status then
      conditions.setTime m i saved.LastTransitionTime
    else
      m

/-- One iteration of the outer loop of `RestoreLastTransitionTimes`, on the
memory: the copy `c` of `(*conditions)[i]` is taken, then the inner loop runs
over the indices of the saved slice. -/
def restoreOuter (conditions savedConditions : Slice) (m : Memory) (i : Nat) : Memory :=
  match conditions.get? m i with
  | none => m
  | some c =>
    (List.range savedConditions.len).foldl (restoreInner c conditions savedConditions i) m

/-- The function `RestoreLastTransitionTimes` on the memory: `conditions` and
`savedConditions` are the slices behind the two pointers, `none` the nil
pointer, and the result is the memory after the call. The two slices may
share elements, as in `RestoreLastTransitionTimes(&l, &l)`. -/
def RestoreLastTransitionTimesPtr (m : Memory) (conditions : Slice)
    (savedConditions : Option Slice) : Memory :=
  match savedConditions with
  | none => m
  | some saved => (List.range conditions.len).foldl (restoreOuter conditions saved) m

/-- A condition with its time set to zero: what is left of it when the time
is not looked at. -/
def Condition.withoutTime (c : Condition) : Condition :=
  { c with LastTransitionTime := 0 }

/-- A memory with one array, at address 0: two conditions of type A and
status True, at the times 10 and 30. -/
def aliasedMemoryExample : Memory :=
  fun a =>
    if a = 0 then
      [ { Type_ := "A", Status := ConditionTrue, Severity := SeverityNone,
          LastTransitionTime := 10, Reason := "Ready", Message := "message of A" },
        { Type_ := "A", Status := ConditionTrue, Severity := SeverityNone,
          LastTransitionTime := 30, Reason := "Ready", Message := "message of A" } ]
    else []

/-- The slice of the two conditions of `aliasedMemoryExample`. -/
def aliasedSliceExample : Slice :=
  { array := 0, offset := 0, len := 2 }

/-- A memory with `restoredExample` at address 0 and `savedTwiceExample` at
address 1. -/
def apartMemoryExample : Memory :=
  fun a => if a = 0 then restoredExample else if a = 1 then savedTwiceExample else []

/-- The slice of `restoredExample` in `apartMemoryExample`. -/
def currentSliceExample : Slice :=
  { array := 0, offset := 0, len := 1 }

/-- The slice of `savedTwiceExample` in `apartMemoryExample`. -/
def savedSliceExample : Slice :=
  { array := 1, offset := 0, len := 3 }

end condition

/-! ## helper.go

The patch helper calls the object store and the conversion layer, which are
not part of the repository. Their answers are inputs of the embedding, the
fields of `Runtime`; the writes the helper issues are returned next to its
result, in the order of the calls. A write goes through the pointer to the
object: the client decodes the answer of the store into it, so a later write
is issued for the object as the earlier one left it. -/

namespace helper

/-- The reason of an error as `k8s_errors.IsConflict` and
`k8s_errors.IsNotFound` classify it. -/
inductive ErrorKind where
  | Conflict
  | NotFound
  | Other
deriving DecidableEq, Repr

/-- A Go `error` value other than nil, as far as the helper looks at it: its
classification and its text. -/
structure Error where
  kind : ErrorKind
  message : String
deriving DecidableEq, Repr

/-- The call `k8s_errors.IsConflict(err)`; `none` is the nil error. -/
def IsConflict (err : Option Error) : Bool :=
  match err with
  | some e => e.kind = ErrorKind.Conflict
  | none => false

/-- The call `k8s_errors.IsNotFound(err)`; `none` is the nil error. -/
def IsNotFound (err : Option Error) : Bool :=
  match err with
  | some e => e.kind = ErrorKind.NotFound
  | none => false

/-- The call `errors.Wrapf(err, message)`: the text is prefixed, the cause and
its classification are kept. -/
def Wrapf (err : Error) (message : String) : Error :=
  { err with message := message ++ ": " ++ err.message }

/-- Modelled from the spec: a field path of a resource, from the top-level
section down. -/
abbrev FieldPath := List String

/-- Modelled from the spec: the declaration of `client.Object` and of
`unstructured.Unstructured` is not part of the repository; a resource and its
snapshot are the mapping from field path to value of the data model, kept as
the list of its entries, where the first entry of a path counts. -/
abbrev Object := List (FieldPath × String)

/-- See `Object`. -/
abbrev Unstructured := List (FieldPath × String)

/-- The value of the field at `path`, `none` when the resource has no such
field. -/
def fieldValue : Object → FieldPath → Option String
  | [], _ => none
  | (p, v) :: rest, path => if p = path then some v else fieldValue rest path

/-- The resource with the field at `path` set to `value`. -/
def setField : Object → FieldPath → String → Object
  | [], path, value => [(path, value)]
  | (p, v) :: rest, path, value =>
    if p = path then (p, value) :: rest else (p, v) :: setField rest path value

/-- A Go map with string keys, as the list of its entries; keys are not
repeated when the map is built with `mapSet`. -/
abbrev GoMap (V : Type) := List (String × V)

/-- The lookup `m[key]` with its presence flag. -/
def mapGet {V : Type} : GoMap V → String → Option V
  | [], _ => none
  | (k, v) :: rest, key => if k = key then some v else mapGet rest key

/-- The assignment `m[key] = value`. -/
def mapSet {V : Type} : GoMap V → String → V → GoMap V
  | [], key, value => [(key, value)]
  | (k, v) :: rest, key, value =>
    if k = key then (k, value) :: rest else (k, v) :: mapSet rest key value

/-- The read `changes[key]` of a `map[string]bool`: false for a key that is
not in the map. -/
def flag (changes : GoMap Bool) (key : String) : Bool :=
  (mapGet changes key).getD false

/-- One entry of a merge patch: a field path and the new value of the field,
`none` for the null that deletes it. -/
abbrev PatchEntry := FieldPath × Option String

/-- The bytes a patch is sent as, by the JSON value they encode: an object
with its top-level members, each with the entries below it, or something
that is not an object. -/
inductive PatchData where
  | object (members : GoMap (List PatchEntry))
  | other (text : String)
deriving DecidableEq, Repr

/-- The call `json.Unmarshal(diff, &patchDiff)` into a `map[string]interface{}`:
the members of an object, an error for anything else. -/
def Unmarshal : PatchData → Except Error (GoMap (List PatchEntry))
  | PatchData.object members => Except.ok members
  | PatchData.other text =>
    Except.error { kind := ErrorKind.Other, message := "json: cannot unmarshal " ++ text }

/-- The collaborators the helper calls: the conversion layer
(`apiutil.GVKForObject`, `runtime.DefaultUnstructuredConverter.ToUnstructured`,
`client.MergeFrom(base).Data(after)`), the object store (`client.Patch`
and `client.Status().Patch` of an object with the patch `MergeFrom(base)`) and
the library function `strings.ToLower`.

`client.Patch(ctx, obj, patch)` works on the pointer `obj`: `Patch` is the
error it returns, `none` for nil, and `Patched` is the answer of the store,
which a call that returns nil has decoded into `obj`; a call that returns an
error leaves `obj` as it was. `StatusPatch` is the error
`client.Status().Patch` returns; the object it leaves behind is not read
again by the helper. -/
structure Runtime where
  GVKForObject : Object → Except Error String
  ToUnstructured : Object → Except Error Unstructured
  Data : (base : Object) → (after : Object) → Except Error PatchData
  Patch : (obj : Object) → (base : Object) → Option Error
  Patched : (obj : Object) → (base : Object) → Object
  StatusPatch : (obj : Object) → (base : Object) → Option Error
  ToLower : String → String

/-- The fields of `Helper` the patching reads and writes; the clients, the
scheme and the logger are the `Runtime`. -/
structure Helper where
  gvk : String
  beforeObject : Object
  before : Unstructured
  after : Option Unstructured
  changes : GoMap Bool
  finalizer : String
deriving DecidableEq, Repr

/-- The section of the store a write goes to. -/
inductive Subresource where
  | body
  | status
deriving DecidableEq, Repr

/-- A write issued to the store: `client.Patch` (body) or
`client.Status().Patch` (status) of `object` with the merge patch from `base`. -/
structure Write where
  subresource : Subresource
  object : Object
  base : Object
deriving DecidableEq, Repr

/-- The function `ToUnstructured` of helper.go. -/
def ToUnstructured (rt : Runtime) (obj : Object) : Except Error Unstructured :=
  match rt.ToUnstructured obj with
  | Except.error err => Except.error err
  | Except.ok rawMap => Except.ok rawMap

/-- The constructor `NewHelper`; `beforeObject` is the deep copy of the object. -/
def NewHelper (rt : Runtime) (obj : Object) : Except Error Helper :=
  match rt.GVKForObject obj with
  | Except.error err => Except.error err
  | Except.ok gvk =>
    match ToUnstructured rt obj with
    | Except.error err => Except.error err
    | Except.ok unstructuredObj =>
      Except.ok
        { gvk := gvk
          beforeObject := obj
          before := unstructuredObj
          after := none
          changes := []
          finalizer := rt.ToLower ("openshift-ai.io/" ++ gvk) }

def Helper.GetChanges (h : Helper) : GoMap Bool :=
  h.changes

def Helper.GetBeforeObject (h : Helper) : Object :=
  h.beforeObject

/-- The method `calculateChanges`: every key of the unmarshalled patch is set
to true in the result. -/
def Helper.calculateChanges (h : Helper) (rt : Runtime) (after : Object) :
    Except Error (GoMap Bool) :=
  match rt.Data h.beforeObject after with
  | Except.error err => Except.error (Wrapf err "failed to calculate patch data")
  | Except.ok diff =>
    match Unmarshal diff with
    | Except.error err => Except.error (Wrapf err "failed to unmarshal patch data into a map")
    | Except.ok patchDiff =>
      Except.ok (patchDiff.foldl (fun res member => mapSet res member.1 true) [])

/-- The method `SetAfter`: the helper after the call and the error returned,
`none` for nil. A failing `calculateChanges` leaves `changes` nil. -/
def Helper.SetAfter (h : Helper) (rt : Runtime) (obj : Object) : Helper × Option Error :=
  match ToUnstructured rt obj with
  | Except.error err => (h, some err)
  | Except.ok unstructuredObj =>
    match Helper.calculateChanges { h with after := some unstructuredObj } rt obj with
    | Except.error err => ({ h with after := some unstructuredObj, changes := [] }, some err)
    | Except.ok changes => ({ h with after := some unstructuredObj, changes := changes }, none)

/-- The write of the body of `obj` with the merge patch from `base`. -/
def bodyWrite (obj base : Object) : Write :=
  { subresource := Subresource.body, object := obj, base := base }

/-- The write of the status subresource of `obj` with the merge patch from
`base`. -/
def statusWrite (obj base : Object) : Write :=
  { subresource := Subresource.status, object := obj, base := base }

/-- The second block of `PatchInstance`, after the writes `issued`: the
status write when `changes["status"]`. -/
def patchStatus (rt : Runtime) (changes : GoMap Bool) (patch obj : Object)
    (issued : List Write) : List Write × Option Error :=
  if flag changes "status" then
    let err := rt.StatusPatch obj patch
    if IsConflict err then
      (issued ++ [statusWrite obj patch], err)
    else if err ≠ none ∧ ¬ IsNotFound err then
      (issued ++ [statusWrite obj patch], err)
    else
      (issued ++ [statusWrite obj patch], none)
  else
    (issued, none)

/-- The object behind the pointer `obj` after `client.Patch(ctx, obj, patch)`:
the answer of the store when the call returned nil, `obj` as it was when the
call returned an error. -/
def Runtime.afterPatch (rt : Runtime) (obj base : Object) : Object :=
  if rt.Patch obj base = none then rt.Patched obj base else obj

/-- The part of `PatchInstance` after `SetAfter`, with `patch` the base of
`client.MergeFrom`: the body write when `changes["metadata"]`, then the status
block unless the body write was answered with a conflict or with an error
other than not-found. The status block works on the same pointer as the body
write, so on the object as the body write left it. -/
def patchSections (rt : Runtime) (changes : GoMap Bool) (patch obj : Object) :
    List Write × Option Error :=
  if flag changes "metadata" then
    let err := rt.Patch obj patch
    if IsConflict err then
      ([bodyWrite obj patch], err)
    else if err ≠ none ∧ ¬ IsNotFound err then
      ([bodyWrite obj patch], err)
    else
      patchStatus rt changes patch (rt.afterPatch obj patch) [bodyWrite obj patch]
  else
    patchStatus rt changes patch obj []

/-- The method `PatchInstance`: the helper after the call, the writes issued,
each with the object it was issued for, and the error returned, `none` for
nil. The object left behind the pointer `instance` is not part of the result. -/
def Helper.PatchInstance (h : Helper) (rt : Runtime) (obj : Object) :
    Helper × List Write × Option Error :=
  match Helper.SetAfter h rt obj with
  | (h', some err) => (h', [], some err)
  | (h', none) =>
    let (issued, err) := patchSections rt (Helper.GetChanges h') (Helper.GetBeforeObject h') obj
    (h', issued, err)

/-- The answer of the store to a write. -/
def Runtime.answer (rt : Runtime) (w : Write) : Option Error :=
  match w.subresource with
  | Subresource.body => rt.Patch w.object w.base
  | Subresource.status => rt.StatusPatch w.object w.base

/-- Modelled from the spec: the function `client.MergeFrom(base).Data(after)`
is not part of the repository. A merge patch describes only the changed
fields: the fields of `after` whose value differs from the one in `before`,
with the new value, and the fields of `before` that `after` does not have,
with null. -/
def changedFields (before after : Object) : List PatchEntry :=
  after.filterMap (fun e =>
      if fieldValue before e.1 = fieldValue after e.1 then none
      else some (e.1, fieldValue after e.1))
    ++ before.filterMap (fun e =>
      if fieldValue after e.1 = none then some (e.1, none) else none)

/-- The patch object with one more entry below the top-level member `key`. -/
def addMember (members : GoMap (List PatchEntry)) (key : String) (entry : PatchEntry) :
    GoMap (List PatchEntry) :=
  match mapGet members key with
  | some entries => mapSet members key (entries ++ [entry])
  | none => mapSet members key [entry]

/-- Modelled from the spec: see `changedFields`; the merge patch is the JSON
object holding the changed fields, each below the top-level section its path
starts with. -/
def mergePatch (before after : Object) : PatchData :=
  PatchData.object
    ((changedFields before after).foldl (fun members e =>
      match e.1 with
      | [] => members
      | key :: rest => addMember members key (rest, e.2)) [])

/-- The top-level keys of a patch. -/
def topLevelKeys : PatchData → List String
  | PatchData.object members => members.map Prod.fst
  | PatchData.other _ => []

/-- The lowering of the letters A to Z, which is what `strings.ToLower` does
to an ASCII string such as the kinds of the examples. -/
def asciiLower (s : String) : String :=
  s.toLower

/-- The answer of the store of the examples to a body write of `obj`, where
`base` is the object it holds: a body write does not reach the status
subresource, so the answer has the fields of `obj` outside the status section
and the status fields of `base`. -/
def storedAnswer (obj base : Object) : Object :=
  obj.filter (fun e => e.1.head? ≠ some "status")
    ++ base.filter (fun e => e.1.head? = some "status")

/-- Modelled from the spec: a runtime whose conversions succeed, whose patch
data is the merge patch, and whose store answers the body write with
`bodyAnswer` and the status write with `statusAnswer`. -/
def exampleRuntime (bodyAnswer statusAnswer : Option Error) : Runtime :=
  { GVKForObject := fun _ => Except.ok "OpenShiftAILightspeed"
    ToUnstructured := fun obj => Except.ok obj
    Data := fun base after => Except.ok (mergePatch base after)
    Patch := fun _ _ => bodyAnswer
    Patched := storedAnswer
    StatusPatch := fun _ _ => statusAnswer
    ToLower := asciiLower }

/-- A resource at the start of a cycle. -/
def beforeExample : Object :=
  [ (["metadata", "name"], "lightspeed"),
    (["spec", "modelName"], "model-a"),
    (["status", "observedGeneration"], "1") ]

/-- The helper `NewHelper` returns for `beforeExample`. -/
def helperExample : Helper :=
  { gvk := "OpenShiftAILightspeed"
    beforeObject := beforeExample
    before := beforeExample
    after := none
    changes := []
    finalizer := "openshift-ai.io/openshiftailightspeed" }

/-- The resource after a cycle that added a finalizer under metadata and
changed a field under status. -/
def afterBothExample : Object :=
  [ (["metadata", "name"], "lightspeed"),
    (["metadata", "finalizers"], "[openshift-ai.io/openshiftailightspeed]"),
    (["spec", "modelName"], "model-a"),
    (["status", "observedGeneration"], "2") ]

/-- The resource after a cycle that changed only a field under spec. -/
def afterSpecExample : Object :=
  [ (["metadata", "name"], "lightspeed"),
    (["spec", "modelName"], "model-b"),
    (["status", "observedGeneration"], "1") ]

/-- The resource after a cycle that changed only a field under status. -/
def afterStatusExample : Object :=
  [ (["metadata", "name"], "lightspeed"),
    (["spec", "modelName"], "model-a"),
    (["status", "observedGeneration"], "2") ]

/-- A runtime whose conversions succeed, whose patch data is `diff`, and
whose store answers the body write with `bodyAnswer` and the status write
with `statusAnswer`. -/
def storeRuntime (diff : PatchData) (bodyAnswer statusAnswer : Option Error) : Runtime :=
  { GVKForObject := fun _ => Except.ok "OpenShiftAILightspeed"
    ToUnstructured := fun obj => Except.ok obj
    Data := fun _ _ => Except.ok diff
    Patch := fun _ _ => bodyAnswer
    Patched := storedAnswer
    StatusPatch := fun _ _ => statusAnswer
    ToLower := asciiLower }

/-- The patch from `beforeExample` to `afterBothExample`. -/
def patchBothExample : PatchData :=
  PatchData.object
    [ ("metadata", [(["finalizers"], some "[openshift-ai.io/openshiftailightspeed]")]),
      ("status", [(["observedGeneration"], some "2")]) ]

/-- The patch from `beforeExample` to `afterSpecExample`. -/
def patchSpecExample : PatchData :=
  PatchData.object [ ("spec", [(["modelName"], some "model-b")]) ]

/-- The patch from `beforeExample` to `afterStatusExample`. -/
def patchStatusExample : PatchData :=
  PatchData.object [ ("status", [(["observedGeneration"], some "2")]) ]

/-- An answer of the store: the baseline version is stale. -/
def conflictError : Error :=
  { kind := ErrorKind.Conflict, message := "the object has been modified" }

/-- An answer of the store: the resource is gone. -/
def notFoundError : Error :=
  { kind := ErrorKind.NotFound, message := "not found" }

/-- An answer of the store: another failure. -/
def otherError : Error :=
  { kind := ErrorKind.Other, message := "connection refused" }

/-- The cycle of `afterBothExample` with a store that answers the body write
with a conflict. -/
def conflictRuntime : Runtime :=
  storeRuntime patchBothExample (some conflictError) none

/-- The cycle of `afterBothExample` with a store that answers the body write
with not-found and the status write with another error. -/
def notFoundRuntime : Runtime :=
  storeRuntime patchBothExample (some notFoundError) (some otherError)

/-- The cycle of `afterBothExample` with a store that accepts every write. -/
def bothRuntime : Runtime :=
  storeRuntime patchBothExample none none

/-- The cycle of `afterSpecExample` with a store that accepts every write. -/
def specRuntime : Runtime :=
  storeRuntime patchSpecExample none none

/-- The cycle of `afterStatusExample` with a store that accepts every write. -/
def statusRuntime : Runtime :=
  storeRuntime patchStatusExample none none

/-- An error of the conversion layer. -/
def conversionError : Error :=
  { kind := ErrorKind.Other, message := "json: unsupported value" }

/-- The runtime `statusRuntime` with a `client.MergeFrom(base).Data(after)`
that fails. -/
def failingDataRuntime : Runtime :=
  { statusRuntime with Data := fun _ _ => Except.error conversionError }

/-- The runtime `statusRuntime` with a conversion to the unstructured form
that fails. -/
def failingConversionRuntime : Runtime :=
  { statusRuntime with ToUnstructured := fun _ => Except.error conversionError }

/-- The helper `helperExample` after the call `SetAfter` of the cycle of
`afterStatusExample`: its change set flags the status section. -/
def flaggedHelperExample : Helper :=
  (Helper.SetAfter helperExample statusRuntime afterStatusExample).1

end helper

namespace condition

open corev1 corev1.ConditionStatus

/-! ## Theorems -/

/-- No two pairs of a status and a severity share a key of the map: the names
of the three statuses start with different letters, so the key determines
the status, and then the severity. -/
theorem groupKey_inj (s s' : ConditionStatus) (a b : Severity)
    (h : s.toString ++ a = s'.toString ++ b) : s = s' ∧ a = b := by
  have hd := congrArg String.data h
  simp only [String.data_append] at hd
  cases s <;> cases s' <;> simp [ConditionStatus.toString] at hd ⊢ <;> exact String.ext hd

theorem addToGroups_keys (m : List (String × conditionGroup)) (x : Condition) :
    (addToGroups m x).map Prod.fst
      = if groupKey x ∈ m.map Prod.fst then m.map Prod.fst
        else m.map Prod.fst ++ [groupKey x] := by
  induction m with
  | nil => simp [addToGroups]
  | cons p rest ih =>
    obtain ⟨k, g⟩ := p
    by_cases hk : k = groupKey x
    · simp [addToGroups, hk]
    · have hk' : ¬ groupKey x = k := fun h => hk h.symm
      simp only [addToGroups, hk, if_false, List.map_cons, ih, List.mem_cons, hk', false_or]
      split <;> simp

theorem mem_addToGroups (m : List (String × conditionGroup)) (x : Condition)
    (hnd : (m.map Prod.fst).Nodup) (p : String × conditionGroup)
    (hp : p ∈ addToGroups m x) :
    (p ∈ m ∧ p.1 ≠ groupKey x) ∨
    (∃ g, (groupKey x, g) ∈ m ∧
      p = (groupKey x, { g with conditions := g.conditions ++ [x] })) ∨
    (groupKey x ∉ m.map Prod.fst ∧
      p = (groupKey x,
        { status := x.Status, severity := x.Severity, conditions := [x] })) := by
  induction m with
  | nil =>
    right; right
    simpa [addToGroups] using hp
  | cons q rest ih =>
    obtain ⟨k, g⟩ := q
    rw [List.map_cons, List.nodup_cons] at hnd
    by_cases hk : k = groupKey x
    · simp only [addToGroups, hk, if_true, List.mem_cons] at hp
      rcases hp with hp | hp
      · right; left
        exact ⟨g, by simp [hk], hp⟩
      · left
        refine ⟨List.mem_cons_of_mem _ hp, ?_⟩
        intro hpk
        apply hnd.1
        rw [hk, ← hpk]
        exact List.mem_map.mpr ⟨p, hp, rfl⟩
    · simp only [addToGroups, hk, if_false, List.mem_cons] at hp
      rcases hp with hp | hp
      · left
        subst hp
        exact ⟨List.mem_cons_self _ _, hk⟩
      · rcases ih hnd.2 hp with h | h | h
        · exact Or.inl ⟨List.mem_cons_of_mem _ h.1, h.2⟩
        · obtain ⟨g', hg', hpe⟩ := h
          exact Or.inr (Or.inl ⟨g', List.mem_cons_of_mem _ hg', hpe⟩)
        · refine Or.inr (Or.inr ⟨?_, h.2⟩)
          simp only [List.map_cons, List.mem_cons, not_or]
          exact ⟨fun e => hk e.symm, h.1⟩

theorem GroupsInv_addToGroups (seen : List Condition) (m : List (String × conditionGroup))
    (x : Condition) (h : GroupsInv seen m) : GroupsInv (seen ++ [x]) (addToGroups m x) := by
  obtain ⟨hnd, hb, hc⟩ := h
  refine ⟨?_, ?_, ?_⟩
  · rw [addToGroups_keys]
    split
    · exact hnd
    · rename_i hx
      refine List.Nodup.append hnd (List.nodup_singleton _) ?_
      intro k hk hk'
      rw [List.mem_singleton] at hk'
      exact hx (hk' ▸ hk)
  · intro p hp
    rcases mem_addToGroups m x hnd p hp with ⟨hpm, hne⟩ | ⟨g, hg, rfl⟩ | ⟨hnot, rfl⟩
    · obtain ⟨h1, h2, h3⟩ := hb p hpm
      refine ⟨h1, ?_, h3⟩
      have hx : ¬ (x.Status = p.2.status ∧ x.Severity = p.2.severity) := by
        rintro ⟨e1, e2⟩
        apply hne
        rw [h1, ← e1, ← e2]
        rfl
      rw [List.filter_append, h2]
      simp [hx]
    · obtain ⟨h1, h2, h3⟩ := hb _ hg
      simp only at h1 h2 h3 ⊢
      have hx := groupKey_inj _ _ _ _ h1
      refine ⟨h1, ?_, by simp⟩
      rw [List.filter_append, h2]
      simp [hx]
    · refine ⟨rfl, ?_, by simp⟩
      have hs : seen.filter (fun y => x.Status = y.Status ∧ x.Severity = y.Severity) = [] := by
        rw [List.filter_eq_nil_iff]
        intro y hy
        simp only [decide_eq_true_eq]
        rintro ⟨e1, e2⟩
        apply hnot
        have hy' := hc y hy
        have hk : groupKey y = groupKey x := by
          unfold groupKey
          rw [e1, e2]
        rwa [hk] at hy'
      simp only [List.filter_append]
      have hs' : seen.filter (fun y => y.Status = x.Status ∧ y.Severity = x.Severity) = [] := by
        rw [← hs]
        congr 1
        funext y
        simp [eq_comm]
      rw [hs']
      simp
  · intro y hy
    rw [addToGroups_keys]
    rw [List.mem_append, List.mem_singleton] at hy
    split
    · rename_i hx
      rcases hy with hy | hy
      · exact hc y hy
      · rw [hy]
        exact hx
    · rcases hy with hy | hy
      · exact List.mem_append_left _ (hc y hy)
      · rw [hy]
        simp

theorem GroupsInv_foldl (c : Conditions) (seen : List Condition)
    (m : List (String × conditionGroup)) (h : GroupsInv seen m) :
    GroupsInv (seen ++ subConditions c)
      (c.foldl (fun groups cond => if cond.Type_ = ReadyCondition then groups
        else addToGroups groups cond) m) := by
  induction c generalizing seen m with
  | nil => simpa [subConditions] using h
  | cons x rest ih =>
    rw [List.foldl_cons]
    by_cases hx : x.Type_ = ReadyCondition
    · have hs : subConditions (x :: rest) = subConditions rest := by
        simp [subConditions, hx]
      rw [hs, if_pos hx]
      exact ih seen m h
    · have hs : seen ++ subConditions (x :: rest) = (seen ++ [x]) ++ subConditions rest := by
        simp [subConditions, hx]
      rw [hs, if_neg hx]
      exact ih _ _ (GroupsInv_addToGroups seen m x h)

theorem groupConditionsMap_inv (c : Conditions) :
    GroupsInv (subConditions c) (groupConditionsMap c) := by
  have h := GroupsInv_foldl c [] [] (by simp [GroupsInv])
  simpa [groupConditionsMap] using h

/-- Every outcome of `groupConditions` holds, for each pair of status and
severity occurring among the conditions other than Ready, one group, with the
conditions of that status and severity in list order. -/
theorem groupConditions_result_spec (c : Conditions) (result : List conditionGroup)
    (h : IsGroupConditionsResult c result) :
    (∀ g ∈ result, g.conditions
        = (subConditions c).filter (fun x => x.Status = g.status ∧ x.Severity = g.severity) ∧
      g.conditions ≠ []) ∧
    (∀ x ∈ subConditions c, ∃ g ∈ result, g.status = x.Status ∧ g.severity = x.Severity) := by
  obtain ⟨_, hb, hc⟩ := groupConditionsMap_inv c
  constructor
  · intro g hg
    obtain ⟨p, hp, rfl⟩ := List.mem_map.mp (h.1.mem_iff.mp hg)
    exact (hb p hp).2
  · intro x hx
    obtain ⟨p, hp, hk⟩ := List.mem_map.mp (hc x hx)
    obtain ⟨h1, _, _⟩ := hb p hp
    rw [h1] at hk
    have hinj := groupKey_inj _ _ _ _ hk
    exact ⟨p.2, h.1.mem_iff.mpr (List.mem_map.mpr ⟨p, hp, rfl⟩), hinj.1, hinj.2⟩

theorem firstRepresentative_eq_none (p : conditionGroup → Bool) (groups : List conditionGroup)
    (h : ∀ g ∈ groups, p g = false) : firstRepresentative p groups = none := by
  induction groups with
  | nil => rfl
  | cons g rest ih =>
    have hg : p g = false := h g (List.mem_cons_self _ _)
    simp only [firstRepresentative, hg]
    exact ih (fun g' hg' => h g' (List.mem_cons_of_mem _ hg'))

theorem firstRepresentative_of_unique (p : conditionGroup → Bool) (groups : List conditionGroup)
    (l : List Condition) (hl : l ≠ []) (hu : ∀ g ∈ groups, p g = true → g.conditions = l)
    (hex : ∃ g ∈ groups, p g = true) : firstRepresentative p groups = l.head? := by
  induction groups with
  | nil => simp at hex
  | cons g rest ih =>
    by_cases hg : p g = true
    · have hc := hu g (List.mem_cons_self _ _) hg
      obtain ⟨c0, tl, rfl⟩ := List.exists_cons_of_ne_nil hl
      simp [firstRepresentative, hg, hc]
    · have hg' : p g = false := by simpa using hg
      simp only [firstRepresentative, hg']
      apply ih (fun g' hg' => hu g' (List.mem_cons_of_mem _ hg'))
      obtain ⟨g', hm, hp⟩ := hex
      rcases List.mem_cons.mp hm with rfl | hm
      · exact absurd hp hg
      · exact ⟨g', hm, hp⟩

theorem firstRepresentative_sorted (p : conditionGroup → Bool) (groups : List conditionGroup)
    (hne : ∀ g ∈ groups, g.conditions ≠ [])
    (hs : groups.Pairwise (fun a b => ¬ severityOrder b.severity < severityOrder a.severity))
    (hex : ∃ g ∈ groups, p g = true) :
    ∃ g ∈ groups, p g = true ∧ firstRepresentative p groups = g.conditions.head? ∧
      ∀ g' ∈ groups, p g' = true → severityOrder g.severity ≤ severityOrder g'.severity := by
  induction groups with
  | nil => simp at hex
  | cons g rest ih =>
    rw [List.pairwise_cons] at hs
    by_cases hg : p g = true
    · refine ⟨g, List.mem_cons_self _ _, hg, ?_, ?_⟩
      · obtain ⟨c0, tl, hc⟩ := List.exists_cons_of_ne_nil (hne g (List.mem_cons_self _ _))
        simp [firstRepresentative, hg, hc]
      · intro g' hm _
        rcases List.mem_cons.mp hm with rfl | hm
        · exact le_refl _
        · exact Nat.le_of_not_lt (hs.1 g' hm)
    · have hg' : p g = false := by simpa using hg
      have hex' : ∃ g ∈ rest, p g = true := by
        obtain ⟨g', hm, hp⟩ := hex
        rcases List.mem_cons.mp hm with rfl | hm
        · exact absurd hp hg
        · exact ⟨g', hm, hp⟩
      obtain ⟨g1, hm1, hp1, hf, hmin⟩ :=
        ih (fun g' hg' => hne g' (List.mem_cons_of_mem _ hg')) hs.2 hex'
      refine ⟨g1, List.mem_cons_of_mem _ hm1, hp1, ?_, ?_⟩
      · simp only [firstRepresentative, hg']
        exact hf
      · intro g' hm hp
        rcases List.mem_cons.mp hm with rfl | hm
        · exact absurd hp hg
        · exact hmin g' hm hp

theorem find_subConditions (c : Conditions) (q : Condition → Bool) :
    (subConditions c).find? q = c.find? (fun x => x.Type_ ≠ ReadyCondition ∧ q x) := by
  induction c with
  | nil => rfl
  | cons x rest ih =>
    by_cases hx : x.Type_ = ReadyCondition
    · have hs : subConditions (x :: rest) = subConditions rest := by simp [subConditions, hx]
      rw [hs, ih]
      simp [List.find?_cons, hx]
    · have hs : subConditions (x :: rest) = x :: subConditions rest := by
        simp [subConditions, hx]
      rw [hs, List.find?_cons, List.find?_cons, ih]
      simp [hx]

theorem mem_subConditions (c : Conditions) (x : Condition) :
    x ∈ subConditions c ↔ x ∈ c ∧ x.Type_ ≠ ReadyCondition := by
  simp [subConditions]

/-- A loop of `Mirror` that looks for the group of one status and one
severity finds the first condition, other than Ready, of that status and
severity, whatever the order of the groups. -/
theorem firstRepresentative_pair (c : Conditions) (groups : List conditionGroup)
    (h : IsGroupConditionsResult c groups) (s : ConditionStatus) (v : Severity) :
    firstRepresentative (fun g => g.status = s ∧ g.severity = v) groups
      = c.find? (fun x => x.Type_ ≠ ReadyCondition ∧ x.Status = s ∧ x.Severity = v) := by
  obtain ⟨hg, hx⟩ := groupConditions_result_spec c groups h
  have hfind := find_subConditions c (fun x => x.Status = s ∧ x.Severity = v)
  simp only [Bool.decide_and, Bool.decide_eq_true] at hfind
  simp only [Bool.decide_and]
  rw [← hfind]
  by_cases hex : ∃ g ∈ groups, g.status = s ∧ g.severity = v
  · obtain ⟨g0, hm0, hs0, hv0⟩ := hex
    have hl := (hg g0 hm0)
    rw [hs0, hv0] at hl
    rw [firstRepresentative_of_unique _ groups _ (hl.1 ▸ hl.2)]
    · rw [List.filter_head?]
      congr 1
      funext x
      simp
    · intro g hm hp
      simp only [Bool.and_eq_true, decide_eq_true_eq] at hp
      have := (hg g hm).1
      rw [hp.1, hp.2] at this
      exact this
    · exact ⟨g0, hm0, by simp [hs0, hv0]⟩
  · rw [firstRepresentative_eq_none]
    · symm
      rw [List.find?_eq_none]
      intro x hxm hxp
      simp only [Bool.and_eq_true, decide_eq_true_eq] at hxp
      obtain ⟨g, hm, h1, h2⟩ := hx x hxm
      exact hex ⟨g, hm, h1.trans hxp.1, h2.trans hxp.2⟩
    · intro g hm
      by_contra hp
      simp only [Bool.not_eq_false, Bool.and_eq_true, decide_eq_true_eq] at hp
      exact hex ⟨g, hm, hp⟩

theorem groupConditions_isResult (c : Conditions) :
    IsGroupConditionsResult c (Conditions.groupConditions c) := by
  refine ⟨List.perm_insertionSort _ _, ?_⟩
  have hs := @List.sorted_insertionSort conditionGroup
    (fun a b => severityOrder a.severity ≤ severityOrder b.severity) _
    ⟨fun a b => Nat.le_total _ _⟩ ⟨fun a b c hab hbc => Nat.le_trans hab hbc⟩
    ((groupConditionsMap c).map Prod.snd)
  exact List.Pairwise.imp (fun hab => Nat.not_lt.mpr hab) hs

theorem Mirror_isResult (c : Conditions) (t : ConditionType) (now : Time) :
    IsMirrorResult c t now (Conditions.Mirror c t now) :=
  ⟨Conditions.groupConditions c, groupConditions_isResult c, rfl⟩

theorem severityOrder_values :
    severityOrder SeverityError = 0 ∧ severityOrder SeverityWarning = 1 ∧
      severityOrder SeverityInfo = 2 ∧ severityOrder SeverityNone = 3 := by
  decide

theorem firstRepresentative_unknown_none (c : Conditions) (groups : List conditionGroup)
    (h : IsGroupConditionsResult c groups)
    (hno : ∀ x ∈ c, x.Type_ ≠ ReadyCondition → x.Status ≠ ConditionUnknown) :
    firstRepresentative (fun g => g.status = ConditionUnknown) groups = none := by
  obtain ⟨hg, _⟩ := groupConditions_result_spec c groups h
  apply firstRepresentative_eq_none
  intro g hm
  by_contra hp
  simp only [Bool.not_eq_false, decide_eq_true_eq] at hp
  obtain ⟨hc, hne⟩ := hg g hm
  obtain ⟨x, tl, hxs⟩ := List.exists_cons_of_ne_nil hne
  have hx : x ∈ (subConditions c).filter
      (fun x => x.Status = g.status ∧ x.Severity = g.severity) := by
    rw [← hc, hxs]
    exact List.mem_cons_self _ _
  rw [List.mem_filter, mem_subConditions] at hx
  simp only [decide_eq_true_eq] at hx
  exact hno x hx.1.1 hx.1.2 (hx.2.1.trans hp)

/-- With severities among the four constants, the loop of `Mirror` over the
Unknown groups finds the representative the specification names, whatever
the order of the groups. -/
theorem firstRepresentative_unknown (c : Conditions) (groups : List conditionGroup)
    (h : IsGroupConditionsResult c groups)
    (hv : ∀ x ∈ c, x.Severity = SeverityError ∨ x.Severity = SeverityWarning ∨
      x.Severity = SeverityInfo ∨ x.Severity = SeverityNone)
    (hex : ∃ x ∈ c, x.Type_ ≠ ReadyCondition ∧ x.Status = ConditionUnknown) :
    ∃ c0, unknownRepresentative c = some c0 ∧
      firstRepresentative (fun g => g.status = ConditionUnknown) groups = some c0 := by
  obtain ⟨hg, hx⟩ := groupConditions_result_spec c groups h
  obtain ⟨x0, hx0, hx0r, hx0u⟩ := hex
  obtain ⟨g0, hm0, hs0, _⟩ := hx x0 ((mem_subConditions c x0).mpr ⟨hx0, hx0r⟩)
  obtain ⟨g1, hm1, hp1, hf, hmin⟩ :=
    firstRepresentative_sorted (fun g => g.status = ConditionUnknown) groups
      (fun g hm => (hg g hm).2) h.2 ⟨g0, hm0, by simp [hs0, hx0u]⟩
  simp only [decide_eq_true_eq] at hp1 hmin
  obtain ⟨hc1, hne1⟩ := hg g1 hm1
  obtain ⟨c0, tl, hc0⟩ := List.exists_cons_of_ne_nil hne1
  have hfind : c.find? (fun x => x.Type_ ≠ ReadyCondition ∧ x.Status = ConditionUnknown ∧
      x.Severity = g1.severity) = some c0 := by
    have e := find_subConditions c (fun x => x.Status = ConditionUnknown ∧ x.Severity = g1.severity)
    simp only [Bool.decide_and, Bool.decide_eq_true] at e
    simp only [Bool.decide_and]
    rw [← e]
    have e2 : (g1.conditions).head? = some c0 := by rw [hc0]; rfl
    rw [hc1, List.filter_head?, hp1] at e2
    simpa [Bool.decide_and] using e2
  have hc0mem : c0 ∈ c ∧ c0.Severity = g1.severity := by
    have hm := List.mem_of_find?_eq_some hfind
    have hp := List.find?_some hfind
    simp only [Bool.decide_and, Bool.and_eq_true, decide_eq_true_eq] at hp
    exact ⟨hm, hp.2.2⟩
  have hlow : ∀ v, severityOrder v < severityOrder g1.severity →
      c.find? (fun x => x.Type_ ≠ ReadyCondition ∧ x.Status = ConditionUnknown ∧
        x.Severity = v) = none := by
    intro v hlt
    rw [List.find?_eq_none]
    intro x hxm hxp
    simp only [Bool.decide_and, Bool.and_eq_true, decide_eq_true_eq] at hxp
    obtain ⟨g', hm', hs', hv'⟩ := hx x ((mem_subConditions c x).mpr ⟨hxm, hxp.1⟩)
    have hle := hmin g' hm' (hs'.trans hxp.2.1)
    rw [hv', hxp.2.2] at hle
    exact absurd hle (Nat.not_le.mpr hlt)
  obtain ⟨r0, r1, r2, r3⟩ := severityOrder_values
  refine ⟨c0, ?_, by rw [hf, hc0]; rfl⟩
  have hval := hv c0 hc0mem.1
  rw [hc0mem.2] at hval
  rcases hval with e | e | e | e
  · rw [e] at hfind
    simp only [unknownRepresentative, List.findSome?_cons, hfind]
  · rw [e] at hfind hlow
    have l0 := hlow SeverityError (by rw [r0, r1]; decide)
    simp only [unknownRepresentative, List.findSome?_cons, hfind, l0]
  · rw [e] at hfind hlow
    have l0 := hlow SeverityError (by rw [r0, r2]; decide)
    have l1 := hlow SeverityWarning (by rw [r1, r2]; decide)
    simp only [unknownRepresentative, List.findSome?_cons, hfind, l0, l1]
  · rw [e] at hfind hlow
    have l0 := hlow SeverityError (by rw [r0, r3]; decide)
    have l1 := hlow SeverityWarning (by rw [r1, r3]; decide)
    have l2 := hlow SeverityInfo (by rw [r2, r3]; decide)
    simp only [unknownRepresentative, List.findSome?_cons, hfind, l0, l1, l2]

/-! ### The aggregation `Mirror` -/

/-- C1: Mirror error precedence. When the list holds a condition, other than
Ready, that is False with severity Error, every outcome of `Mirror` is False
with severity Error and carries the reason and the message of the first such
condition in list order, whatever else the list holds. -/
theorem Mirror_error_precedence (L : Conditions) (t : ConditionType) (now : Time)
    (r : Condition) (hr : IsMirrorResult L t now r)
    (hex : ∃ x ∈ L, x.Type_ ≠ ReadyCondition ∧ x.Status = ConditionFalse ∧
      x.Severity = SeverityError) :
    r.Status = ConditionFalse ∧ r.Severity = SeverityError ∧
      ∃ c0, L.find? (fun x => x.Type_ ≠ ReadyCondition ∧ x.Status = ConditionFalse ∧
          x.Severity = SeverityError) = some c0 ∧
        r.Reason = c0.Reason ∧ r.Message = c0.Message := by
  obtain ⟨groups, hg, rfl⟩ := hr
  have hf := firstRepresentative_pair L groups hg ConditionFalse SeverityError
  obtain ⟨x, hx, hp⟩ := hex
  have hsome : (L.find? (fun x => x.Type_ ≠ ReadyCondition ∧ x.Status = ConditionFalse ∧
      x.Severity = SeverityError)).isSome :=
    List.find?_isSome.mpr ⟨x, hx, by simp [hp]⟩
  obtain ⟨c0, hc0⟩ := Option.isSome_iff_exists.mp hsome
  rw [hc0] at hf
  refine ⟨?_, ?_, c0, hc0, ?_, ?_⟩ <;> simp only [mirrorOf, hf]

/-- The scenario of C1: in the list A False/Warning, B False/Error, C Unknown
the aggregate is False/Error with the reason and the message of B. -/
theorem Mirror_error_precedence_witness :
    (∃ x ∈ precedenceExample, x.Type_ ≠ ReadyCondition ∧ x.Status = ConditionFalse ∧
      x.Severity = SeverityError) ∧
    (Conditions.Mirror precedenceExample ReadyCondition 9).Status = ConditionFalse ∧
    (Conditions.Mirror precedenceExample ReadyCondition 9).Severity = SeverityError ∧
    (Conditions.Mirror precedenceExample ReadyCondition 9).Reason = "ReasonB" ∧
    (Conditions.Mirror precedenceExample ReadyCondition 9).Message = "message of B" := by
  have hex : ∃ x ∈ precedenceExample, x.Type_ ≠ ReadyCondition ∧
      x.Status = ConditionFalse ∧ x.Severity = SeverityError := by decide
  obtain ⟨h1, h2, c0, hc0, h3, h4⟩ :=
    Mirror_error_precedence precedenceExample ReadyCondition 9 _
      (Mirror_isResult precedenceExample ReadyCondition 9) hex
  have hfirst : precedenceExample.find? (fun x => x.Type_ ≠ ReadyCondition ∧
      x.Status = ConditionFalse ∧ x.Severity = SeverityError)
      = some { Type_ := "B", Status := ConditionFalse, Severity := SeverityError,
               LastTransitionTime := 2, Reason := "ReasonB", Message := "message of B" } := by
    decide
  rw [hfirst] at hc0
  cases hc0
  exact ⟨hex, h1, h2, h3, h4⟩

/-- C2: Mirror warning precedence. When no condition other than Ready is
False/Error and one is False with severity Warning, every outcome of `Mirror`
is False with severity Warning and carries the reason and the message of the
first False/Warning condition in list order, also next to Unknown conditions. -/
theorem Mirror_warning_precedence (L : Conditions) (t : ConditionType) (now : Time)
    (r : Condition) (hr : IsMirrorResult L t now r)
    (hnoError : ∀ x ∈ L, x.Type_ ≠ ReadyCondition →
      ¬ (x.Status = ConditionFalse ∧ x.Severity = SeverityError))
    (hex : ∃ x ∈ L, x.Type_ ≠ ReadyCondition ∧ x.Status = ConditionFalse ∧
      x.Severity = SeverityWarning) :
    r.Status = ConditionFalse ∧ r.Severity = SeverityWarning ∧
      ∃ c0, L.find? (fun x => x.Type_ ≠ ReadyCondition ∧ x.Status = ConditionFalse ∧
          x.Severity = SeverityWarning) = some c0 ∧
        r.Reason = c0.Reason ∧ r.Message = c0.Message := by
  obtain ⟨groups, hg, rfl⟩ := hr
  have hfe := firstRepresentative_pair L groups hg ConditionFalse SeverityError
  have hnone : L.find? (fun x => x.Type_ ≠ ReadyCondition ∧ x.Status = ConditionFalse ∧
      x.Severity = SeverityError) = none := by
    rw [List.find?_eq_none]
    intro x hx hp
    simp only [decide_eq_true_eq] at hp
    exact hnoError x hx hp.1 hp.2
  rw [hnone] at hfe
  have hf := firstRepresentative_pair L groups hg ConditionFalse SeverityWarning
  obtain ⟨x, hx, hp⟩ := hex
  have hsome : (L.find? (fun x => x.Type_ ≠ ReadyCondition ∧ x.Status = ConditionFalse ∧
      x.Severity = SeverityWarning)).isSome :=
    List.find?_isSome.mpr ⟨x, hx, by simp [hp]⟩
  obtain ⟨c0, hc0⟩ := Option.isSome_iff_exists.mp hsome
  rw [hc0] at hf
  refine ⟨?_, ?_, c0, hc0, ?_, ?_⟩ <;> simp only [mirrorOf, hfe, hf]

/-- An instance of C2: with C Unknown first, A False/Warning second and D
True, the aggregate is False/Warning with the reason and the message of A. -/
theorem Mirror_warning_precedence_witness :
    (∀ x ∈ warningExample, x.Type_ ≠ ReadyCondition →
      ¬ (x.Status = ConditionFalse ∧ x.Severity = SeverityError)) ∧
    (∃ x ∈ warningExample, x.Type_ ≠ ReadyCondition ∧ x.Status = ConditionFalse ∧
      x.Severity = SeverityWarning) ∧
    (Conditions.Mirror warningExample ReadyCondition 9).Status = ConditionFalse ∧
    (Conditions.Mirror warningExample ReadyCondition 9).Severity = SeverityWarning ∧
    (Conditions.Mirror warningExample ReadyCondition 9).Reason = "ReasonA" ∧
    (Conditions.Mirror warningExample ReadyCondition 9).Message = "message of A" := by
  have hno : ∀ x ∈ warningExample, x.Type_ ≠ ReadyCondition →
      ¬ (x.Status = ConditionFalse ∧ x.Severity = SeverityError) := by decide
  have hex : ∃ x ∈ warningExample, x.Type_ ≠ ReadyCondition ∧
      x.Status = ConditionFalse ∧ x.Severity = SeverityWarning := by decide
  obtain ⟨h1, h2, c0, hc0, h3, h4⟩ :=
    Mirror_warning_precedence warningExample ReadyCondition 9 _
      (Mirror_isResult warningExample ReadyCondition 9) hno hex
  have hfirst : warningExample.find? (fun x => x.Type_ ≠ ReadyCondition ∧
      x.Status = ConditionFalse ∧ x.Severity = SeverityWarning)
      = some { Type_ := "A", Status := ConditionFalse, Severity := SeverityWarning,
               LastTransitionTime := 1, Reason := "ReasonA", Message := "message of A" } := by
    decide
  rw [hfirst] at hc0
  cases hc0
  exact ⟨hno, hex, h1, h2, h3, h4⟩

/-- C3: Mirror unknown case. With severities among Error, Warning, Info and
None, when no condition other than Ready is False/Error or False/Warning and
one has status Unknown, every outcome of `Mirror` is Unknown with severity
None, whatever severities the Unknown conditions carry, and its reason and
message are those of the representative: the first condition in list order of
the Unknown group that comes first in the ranking Error, Warning, Info, None. -/
theorem Mirror_unknown_case (L : Conditions) (t : ConditionType) (now : Time)
    (r : Condition) (hr : IsMirrorResult L t now r)
    (hv : ∀ x ∈ L, x.Severity = SeverityError ∨ x.Severity = SeverityWarning ∨
      x.Severity = SeverityInfo ∨ x.Severity = SeverityNone)
    (hnoError : ∀ x ∈ L, x.Type_ ≠ ReadyCondition →
      ¬ (x.Status = ConditionFalse ∧ x.Severity = SeverityError))
    (hnoWarning : ∀ x ∈ L, x.Type_ ≠ ReadyCondition →
      ¬ (x.Status = ConditionFalse ∧ x.Severity = SeverityWarning))
    (hex : ∃ x ∈ L, x.Type_ ≠ ReadyCondition ∧ x.Status = ConditionUnknown) :
    r.Status = ConditionUnknown ∧ r.Severity = SeverityNone ∧
      ∃ c0, unknownRepresentative L = some c0 ∧
        r.Reason = c0.Reason ∧ r.Message = c0.Message := by
  obtain ⟨groups, hg, rfl⟩ := hr
  have hfe := firstRepresentative_pair L groups hg ConditionFalse SeverityError
  have hnone : L.find? (fun x => x.Type_ ≠ ReadyCondition ∧ x.Status = ConditionFalse ∧
      x.Severity = SeverityError) = none := by
    rw [List.find?_eq_none]
    intro x hx hp
    simp only [decide_eq_true_eq] at hp
    exact hnoError x hx hp.1 hp.2
  rw [hnone] at hfe
  have hfw := firstRepresentative_pair L groups hg ConditionFalse SeverityWarning
  have hnone' : L.find? (fun x => x.Type_ ≠ ReadyCondition ∧ x.Status = ConditionFalse ∧
      x.Severity = SeverityWarning) = none := by
    rw [List.find?_eq_none]
    intro x hx hp
    simp only [decide_eq_true_eq] at hp
    exact hnoWarning x hx hp.1 hp.2
  rw [hnone'] at hfw
  obtain ⟨c0, hrep, hf⟩ := firstRepresentative_unknown L groups hg hv hex
  refine ⟨?_, ?_, c0, hrep, ?_, ?_⟩ <;> simp only [mirrorOf, hfe, hfw, hf]

/-- An instance of C3: the Unknown conditions are A with severity None, then
C and E with severity Info; the aggregate is Unknown with severity None and
the reason and the message of C, the first one of the Info group. -/
theorem Mirror_unknown_case_witness :
    (∀ x ∈ unknownExample, x.Severity = SeverityError ∨ x.Severity = SeverityWarning ∨
      x.Severity = SeverityInfo ∨ x.Severity = SeverityNone) ∧
    (∃ x ∈ unknownExample, x.Type_ ≠ ReadyCondition ∧ x.Status = ConditionUnknown) ∧
    (Conditions.Mirror unknownExample ReadyCondition 9).Status = ConditionUnknown ∧
    (Conditions.Mirror unknownExample ReadyCondition 9).Severity = SeverityNone ∧
    (Conditions.Mirror unknownExample ReadyCondition 9).Reason = "ReasonC" ∧
    (Conditions.Mirror unknownExample ReadyCondition 9).Message = "message of C" := by
  have hv : ∀ x ∈ unknownExample, x.Severity = SeverityError ∨
      x.Severity = SeverityWarning ∨ x.Severity = SeverityInfo ∨
      x.Severity = SeverityNone := by decide
  have hex : ∃ x ∈ unknownExample, x.Type_ ≠ ReadyCondition ∧
      x.Status = ConditionUnknown := by decide
  obtain ⟨h1, h2, c0, hc0, h3, h4⟩ :=
    Mirror_unknown_case unknownExample ReadyCondition 9 _
      (Mirror_isResult unknownExample ReadyCondition 9) hv (by decide) (by decide) hex
  have hrep : unknownRepresentative unknownExample
      = some { Type_ := "C", Status := ConditionUnknown, Severity := SeverityInfo,
               LastTransitionTime := 3, Reason := "ReasonC", Message := "message of C" } := by
    decide
  rw [hrep] at hc0
  cases hc0
  exact ⟨hv, hex, h1, h2, h3, h4⟩

/-- C4: Mirror default case. When no condition other than Ready is
False/Error, False/Warning or Unknown, every outcome of `Mirror` is True with
severity None, reason Ready and the message "Setup complete"; conditions that
are False with severity Info or None do not change this. -/
theorem Mirror_default_case (L : Conditions) (t : ConditionType) (now : Time)
    (r : Condition) (hr : IsMirrorResult L t now r)
    (hnoError : ∀ x ∈ L, x.Type_ ≠ ReadyCondition →
      ¬ (x.Status = ConditionFalse ∧ x.Severity = SeverityError))
    (hnoWarning : ∀ x ∈ L, x.Type_ ≠ ReadyCondition →
      ¬ (x.Status = ConditionFalse ∧ x.Severity = SeverityWarning))
    (hnoUnknown : ∀ x ∈ L, x.Type_ ≠ ReadyCondition → x.Status ≠ ConditionUnknown) :
    r.Status = ConditionTrue ∧ r.Severity = SeverityNone ∧ r.Reason = "Ready" ∧
      r.Message = "Setup complete" := by
  obtain ⟨groups, hg, rfl⟩ := hr
  have hfe := firstRepresentative_pair L groups hg ConditionFalse SeverityError
  have hnone : L.find? (fun x => x.Type_ ≠ ReadyCondition ∧ x.Status = ConditionFalse ∧
      x.Severity = SeverityError) = none := by
    rw [List.find?_eq_none]
    intro x hx hp
    simp only [decide_eq_true_eq] at hp
    exact hnoError x hx hp.1 hp.2
  rw [hnone] at hfe
  have hfw := firstRepresentative_pair L groups hg ConditionFalse SeverityWarning
  have hnone' : L.find? (fun x => x.Type_ ≠ ReadyCondition ∧ x.Status = ConditionFalse ∧
      x.Severity = SeverityWarning) = none := by
    rw [List.find?_eq_none]
    intro x hx hp
    simp only [decide_eq_true_eq] at hp
    exact hnoWarning x hx hp.1 hp.2
  rw [hnone'] at hfw
  have hfu := firstRepresentative_unknown_none L groups hg hnoUnknown
  refine ⟨?_, ?_, ?_, ?_⟩ <;> simp only [mirrorOf, hfe, hfw, hfu] <;> rfl

/-- The scenario of C4: in the list A True, B False with severity None the
aggregate is True. -/
theorem Mirror_default_case_witness :
    (∀ x ∈ defaultExample, x.Type_ ≠ ReadyCondition →
      ¬ (x.Status = ConditionFalse ∧ x.Severity = SeverityError)) ∧
    (∀ x ∈ defaultExample, x.Type_ ≠ ReadyCondition →
      ¬ (x.Status = ConditionFalse ∧ x.Severity = SeverityWarning)) ∧
    (∀ x ∈ defaultExample, x.Type_ ≠ ReadyCondition → x.Status ≠ ConditionUnknown) ∧
    (∃ x ∈ defaultExample, x.Status = ConditionFalse ∧ x.Severity = SeverityNone) ∧
    (Conditions.Mirror defaultExample ReadyCondition 9).Status = ConditionTrue ∧
    (Conditions.Mirror defaultExample ReadyCondition 9).Severity = SeverityNone ∧
    (Conditions.Mirror defaultExample ReadyCondition 9).Reason = "Ready" ∧
    (Conditions.Mirror defaultExample ReadyCondition 9).Message = "Setup complete" :=
  have h1 : ∀ x ∈ defaultExample, x.Type_ ≠ ReadyCondition →
      ¬ (x.Status = ConditionFalse ∧ x.Severity = SeverityError) := by decide
  have h2 : ∀ x ∈ defaultExample, x.Type_ ≠ ReadyCondition →
      ¬ (x.Status = ConditionFalse ∧ x.Severity = SeverityWarning) := by decide
  have h3 : ∀ x ∈ defaultExample, x.Type_ ≠ ReadyCondition →
      x.Status ≠ ConditionUnknown := by decide
  ⟨h1, h2, h3, by decide,
    Mirror_default_case defaultExample ReadyCondition 9 _
      (Mirror_isResult defaultExample ReadyCondition 9) h1 h2 h3⟩

theorem firstRepresentative_unknown_det (L : Conditions) (groups₁ groups₂ : List conditionGroup)
    (h₁ : IsGroupConditionsResult L groups₁) (h₂ : IsGroupConditionsResult L groups₂)
    (hv : ∀ x ∈ L, x.Severity = SeverityError ∨ x.Severity = SeverityWarning ∨
      x.Severity = SeverityInfo ∨ x.Severity = SeverityNone) :
    firstRepresentative (fun g => g.status = ConditionUnknown) groups₁
      = firstRepresentative (fun g => g.status = ConditionUnknown) groups₂ := by
  by_cases hex : ∃ x ∈ L, x.Type_ ≠ ReadyCondition ∧ x.Status = ConditionUnknown
  · obtain ⟨c1, hr1, hf1⟩ := firstRepresentative_unknown L groups₁ h₁ hv hex
    obtain ⟨c2, hr2, hf2⟩ := firstRepresentative_unknown L groups₂ h₂ hv hex
    rw [hf1, hf2, ← hr1, ← hr2]
  · have hno : ∀ x ∈ L, x.Type_ ≠ ReadyCondition → x.Status ≠ ConditionUnknown :=
      fun x hx hr hu => hex ⟨x, hx, hr, hu⟩
    rw [firstRepresentative_unknown_none L groups₁ h₁ hno,
      firstRepresentative_unknown_none L groups₂ h₂ hno]

/-- C5: Mirror is a deterministic total function of the list. A status is one
of True, False, Unknown; with severities among Error, Warning, Info and None,
`Mirror` has an outcome, and any two outcomes, for any iteration order of the
map and any order the sort gives groups of equal rank, agree on the type, the
status, the severity, the reason and the message. -/
theorem Mirror_deterministic (L : Conditions) (t : ConditionType)
    (hv : ∀ x ∈ L, x.Severity = SeverityError ∨ x.Severity = SeverityWarning ∨
      x.Severity = SeverityInfo ∨ x.Severity = SeverityNone) :
    (∀ now, IsMirrorResult L t now (Conditions.Mirror L t now)) ∧
    ∀ now₁ now₂ r₁ r₂, IsMirrorResult L t now₁ r₁ → IsMirrorResult L t now₂ r₂ →
      r₁.Type_ = r₂.Type_ ∧ r₁.Status = r₂.Status ∧ r₁.Severity = r₂.Severity ∧
        r₁.Reason = r₂.Reason ∧ r₁.Message = r₂.Message := by
  refine ⟨fun now => Mirror_isResult L t now, ?_⟩
  rintro now₁ now₂ r₁ r₂ ⟨groups₁, h₁, rfl⟩ ⟨groups₂, h₂, rfl⟩
  have e1 : firstRepresentative
      (fun g => g.status = ConditionFalse ∧ g.severity = SeverityError) groups₁
      = firstRepresentative
        (fun g => g.status = ConditionFalse ∧ g.severity = SeverityError) groups₂ := by
    rw [firstRepresentative_pair L groups₁ h₁, firstRepresentative_pair L groups₂ h₂]
  have e2 : firstRepresentative
      (fun g => g.status = ConditionFalse ∧ g.severity = SeverityWarning) groups₁
      = firstRepresentative
        (fun g => g.status = ConditionFalse ∧ g.severity = SeverityWarning) groups₂ := by
    rw [firstRepresentative_pair L groups₁ h₁, firstRepresentative_pair L groups₂ h₂]
  have e3 := firstRepresentative_unknown_det L groups₁ groups₂ h₁ h₂ hv
  simp only [mirrorOf, e1, e2, e3]
  cases firstRepresentative
      (fun g => g.status = ConditionFalse ∧ g.severity = SeverityError) groups₂ with
  | some c0 => simp
  | none =>
    cases firstRepresentative
        (fun g => g.status = ConditionFalse ∧ g.severity = SeverityWarning) groups₂ with
    | some c0 => simp
    | none =>
      cases firstRepresentative (fun g => g.status = ConditionUnknown) groups₂ with
      | some c0 => simp
      | none => simp [TrueCondition]

/-- An instance of C5: the list of the Unknown scenario has severities among
the four constants, so all the outcomes of `Mirror` on it agree with the
executable one. -/
theorem Mirror_deterministic_witness :
    (∀ x ∈ unknownExample, x.Severity = SeverityError ∨ x.Severity = SeverityWarning ∨
      x.Severity = SeverityInfo ∨ x.Severity = SeverityNone) ∧
    ((∀ now, IsMirrorResult unknownExample ReadyCondition now
        (Conditions.Mirror unknownExample ReadyCondition now)) ∧
      ∀ now₁ now₂ r₁ r₂, IsMirrorResult unknownExample ReadyCondition now₁ r₁ →
        IsMirrorResult unknownExample ReadyCondition now₂ r₂ →
        r₁.Type_ = r₂.Type_ ∧ r₁.Status = r₂.Status ∧ r₁.Severity = r₂.Severity ∧
          r₁.Reason = r₂.Reason ∧ r₁.Message = r₂.Message) :=
  have hv : ∀ x ∈ unknownExample, x.Severity = SeverityError ∨
      x.Severity = SeverityWarning ∨ x.Severity = SeverityInfo ∨
      x.Severity = SeverityNone := by decide
  ⟨hv, Mirror_deterministic unknownExample ReadyCondition hv⟩

theorem groupConditionsMap_foldl_subConditions (L : Conditions)
    (m : List (String × conditionGroup)) :
    (subConditions L).foldl (fun groups cond => if cond.Type_ = ReadyCondition then groups
        else addToGroups groups cond) m
      = L.foldl (fun groups cond => if cond.Type_ = ReadyCondition then groups
        else addToGroups groups cond) m := by
  induction L generalizing m with
  | nil => rfl
  | cons x rest ih =>
    by_cases hx : x.Type_ = ReadyCondition
    · have hs : subConditions (x :: rest) = subConditions rest := by simp [subConditions, hx]
      rw [hs, List.foldl_cons, if_pos hx]
      exact ih m
    · have hs : subConditions (x :: rest) = x :: subConditions rest := by
        simp [subConditions, hx]
      rw [hs, List.foldl_cons, List.foldl_cons, if_neg hx]
      exact ih _

/-- C6: Mirror excludes the reserved aggregate type from its input. The
outcomes of `Mirror` on a list are the outcomes of `Mirror` on the list with
every condition of the type Ready removed, and the executable `Mirror` returns
the same condition on both; a stale Ready condition has no influence. -/
theorem Mirror_excludes_ready (L : Conditions) (t : ConditionType) (now : Time) :
    (∀ r, IsMirrorResult L t now r ↔
      IsMirrorResult (L.filter (fun x => x.Type_ ≠ ReadyCondition)) t now r) ∧
    Conditions.Mirror L t now
      = Conditions.Mirror (L.filter (fun x => x.Type_ ≠ ReadyCondition)) t now := by
  have hmap : groupConditionsMap (L.filter (fun x => x.Type_ ≠ ReadyCondition))
      = groupConditionsMap L := groupConditionsMap_foldl_subConditions L []
  constructor
  · intro r
    simp only [IsMirrorResult, IsGroupConditionsResult, hmap]
  · simp only [Conditions.Mirror, Conditions.groupConditions, hmap]

/-! ### Messages of `MarkFalse` -/

theorem getMessage_eq (messageFormat : String) (messageArgs : List MessageArg) :
    getMessage messageFormat messageArgs = messageFormat := by
  unfold getMessage
  split <;> rfl

/-- C7: MarkFalse / FalseCondition templated message, on the input of the
claim. With the format "Deployment not ready: %s" and the argument "timeout"
the message built by `FalseCondition` and stored by `MarkFalse` is the format
string itself, with the verb left in place, not "Deployment not ready:
timeout". -/
theorem FalseCondition_message_not_substituted :
    (FalseCondition "DeploymentReady" ErrorReason SeverityError DeploymentReadyErrorMessage
        [MessageArg.str "timeout"] 5).Message = "Deployment not ready: %s" ∧
    (FalseCondition "DeploymentReady" ErrorReason SeverityError DeploymentReadyErrorMessage
        [MessageArg.str "timeout"] 5).Message ≠ "Deployment not ready: timeout" ∧
    (Conditions.Get
        (Conditions.MarkFalse [] "DeploymentReady" ErrorReason SeverityError
          DeploymentReadyErrorMessage [MessageArg.str "timeout"] 5)
        "DeploymentReady").map (fun c => c.Message) = some "Deployment not ready: %s" := by
  decide

/-! ### `Set`, `Get` and the operations built on them -/

theorem Get_Set (L : Conditions) (c : Condition) :
    Conditions.Get (Conditions.Set L c) c.Type_ = some c := by
  induction L with
  | nil => simp [Conditions.Set, Conditions.Get]
  | cons x rest ih =>
    by_cases hx : x.Type_ = c.Type_
    · simp [Conditions.Set, Conditions.Get, hx]
    · simp [Conditions.Set, Conditions.Get, hx, ih]

theorem Set_length (L : Conditions) (c : Condition) :
    (Conditions.Set L c).length = if ∃ x ∈ L, x.Type_ = c.Type_ then L.length
      else L.length + 1 := by
  induction L with
  | nil => simp [Conditions.Set]
  | cons x rest ih =>
    by_cases hx : x.Type_ = c.Type_
    · simp [Conditions.Set, hx]
    · simp only [Conditions.Set, hx, if_false, List.length_cons, ih, List.mem_cons,
        exists_eq_or_imp, false_or]
      split <;> rfl

/-- C8: MarkFalse verbatim message. Without extra arguments, after
`MarkFalse t reason severity f` the condition `Get t` exists, has status
False, the given reason and severity, and the message `f` itself, also when
`f` contains verbs such as %s. -/
theorem MarkFalse_verbatim (L : Conditions) (t : ConditionType) (reason : Reason)
    (severity : Severity) (f : String) (now : Time) :
    ∃ c, Conditions.Get (Conditions.MarkFalse L t reason severity f [] now) t = some c ∧
      c.Status = ConditionFalse ∧ c.Reason = reason ∧ c.Severity = severity ∧
      c.Message = f :=
  ⟨FalseCondition t reason severity f [] now,
    Get_Set L (FalseCondition t reason severity f [] now), rfl, rfl, rfl, rfl⟩

/-- C9: Set then Get. After `Set c` the call `Get c.Type` returns `c` itself,
with all its fields; the length of the list is unchanged or larger by 1, and
it is unchanged exactly when the list already held a condition of the type of
`c`. -/
theorem Set_then_Get (L : Conditions) (c : Condition) :
    Conditions.Get (Conditions.Set L c) c.Type_ = some c ∧
    ((Conditions.Set L c).length = L.length ∨
      (Conditions.Set L c).length = L.length + 1) ∧
    ((Conditions.Set L c).length = L.length ↔ ∃ x ∈ L, x.Type_ = c.Type_) := by
  refine ⟨Get_Set L c, ?_, ?_⟩
  · rw [Set_length]
    split
    · exact Or.inl rfl
    · exact Or.inr rfl
  · rw [Set_length]
    split
    · rename_i h
      exact ⟨fun _ => h, fun _ => rfl⟩
    · rename_i h
      exact ⟨fun e => absurd e (Nat.succ_ne_self _), fun e => absurd e h⟩

theorem Set_types (L : Conditions) (c : Condition) :
    (Conditions.Set L c).map (fun x => x.Type_)
      = if c.Type_ ∈ L.map (fun x => x.Type_) then L.map (fun x => x.Type_)
        else L.map (fun x => x.Type_) ++ [c.Type_] := by
  induction L with
  | nil => simp [Conditions.Set]
  | cons x rest ih =>
    by_cases hx : x.Type_ = c.Type_
    · simp [Conditions.Set, hx]
    · have hx' : ¬ c.Type_ = x.Type_ := fun e => hx e.symm
      simp only [Conditions.Set, hx, if_false, List.map_cons, ih, List.mem_cons, hx', false_or]
      split <;> simp

theorem UniqueTypes_Set (L : Conditions) (c : Condition) (h : UniqueTypes L) :
    UniqueTypes (Conditions.Set L c) := by
  unfold UniqueTypes at h ⊢
  rw [Set_types]
  split
  · exact h
  · rename_i hc
    refine List.Nodup.append h (List.nodup_singleton _) ?_
    intro k hk hk'
    rw [List.mem_singleton] at hk'
    exact hc (hk' ▸ hk)

theorem UniqueTypes_run (L : Conditions) (op : Operation) (h : UniqueTypes L) :
    UniqueTypes (op.run L) := by
  cases op <;> exact UniqueTypes_Set L _ h

/-- C10: Uniqueness by type is an invariant of the condition list. On a list
holding at most one condition per type, each of `Set`, `MarkTrue`, `MarkFalse`
and `MarkUnknown` gives a list holding at most one condition per type, and so
does any sequence of these calls; hence every list reached from the empty
list by such a sequence has no two conditions of the same type. -/
theorem UniqueTypes_invariant (L : Conditions) (h : UniqueTypes L) :
    (∀ c, UniqueTypes (Conditions.Set L c)) ∧
    (∀ t message now, UniqueTypes (Conditions.MarkTrue L t message now)) ∧
    (∀ t reason severity message messageArgs now,
      UniqueTypes (Conditions.MarkFalse L t reason severity message messageArgs now)) ∧
    (∀ t reason message now, UniqueTypes (Conditions.MarkUnknown L t reason message now)) ∧
    (∀ ops : List Operation, UniqueTypes (ops.foldl Operation.run L)) ∧
    (∀ ops : List Operation, UniqueTypes (ops.foldl Operation.run [])) := by
  have key : ∀ (ops : List Operation) (L : Conditions), UniqueTypes L →
      UniqueTypes (ops.foldl Operation.run L) := by
    intro ops
    induction ops with
    | nil => exact fun L h => h
    | cons op rest ih => exact fun L h => ih _ (UniqueTypes_run L op h)
  exact ⟨fun c => UniqueTypes_Set L c h,
    fun t message now => UniqueTypes_Set L _ h,
    fun t reason severity message messageArgs now => UniqueTypes_Set L _ h,
    fun t reason message now => UniqueTypes_Set L _ h,
    fun ops => key ops L h,
    fun ops => key ops [] List.nodup_nil⟩

/-- An instance of C10: a list with the types Ready and A, after `MarkFalse`
on A, `MarkTrue` on B, `Set` on Ready and `MarkUnknown` on B, still has one
condition per type. -/
theorem UniqueTypes_invariant_witness :
    UniqueTypes [TrueCondition "Ready" "Setup complete" 1, TrueCondition "A" "done" 1] ∧
    UniqueTypes
      ([Operation.markFalse "A" ErrorReason SeverityError "failed" [] 2,
        Operation.markTrue "B" "done" 3,
        Operation.set (UnknownCondition "Ready" InitReason "Setup not started" 4),
        Operation.markUnknown "B" RequestedReason "requested" 5].foldl Operation.run
        [TrueCondition "Ready" "Setup complete" 1, TrueCondition "A" "done" 1]) :=
  have h : UniqueTypes [TrueCondition "Ready" "Setup complete" 1,
      TrueCondition "A" "done" 1] := by decide
  ⟨h, (UniqueTypes_invariant _ h).2.2.2.2.1 _⟩

/-- C11: Set is a frame-respecting upsert. After `Set c` the conditions of a
type other than the type of `c` are the same, in the same order; when the
list held a condition of the type of `c`, `c` stands in place of the first
such entry and nothing else changed, otherwise `c` is appended at the end. -/
theorem Set_frame (L : Conditions) (c : Condition) :
    (Conditions.Set L c).filter (fun x => x.Type_ ≠ c.Type_)
      = L.filter (fun x => x.Type_ ≠ c.Type_) ∧
    ((∃ x ∈ L, x.Type_ = c.Type_) →
      ∃ pre x post, L = pre ++ x :: post ∧ (∀ y ∈ pre, y.Type_ ≠ c.Type_) ∧
        x.Type_ = c.Type_ ∧ Conditions.Set L c = pre ++ c :: post) ∧
    ((∀ x ∈ L, x.Type_ ≠ c.Type_) → Conditions.Set L c = L ++ [c]) := by
  induction L with
  | nil => simp [Conditions.Set]
  | cons a rest ih =>
    obtain ⟨ih1, ih2, ih3⟩ := ih
    by_cases ha : a.Type_ = c.Type_
    · refine ⟨by simp [Conditions.Set, ha], fun _ => ?_, fun h => ?_⟩
      · exact ⟨[], a, rest, rfl, by simp, ha, by simp [Conditions.Set, ha]⟩
      · exact absurd ha (h a (List.mem_cons_self _ _))
    · refine ⟨?_, fun h => ?_, fun h => ?_⟩
      · simp only [Conditions.Set, ha, if_false, List.filter_cons, ih1]
      · obtain ⟨x, hx, hxt⟩ := h
        rcases List.mem_cons.mp hx with rfl | hx
        · exact absurd hxt ha
        · obtain ⟨pre, y, post, hL, hpre, hy, hset⟩ := ih2 ⟨x, hx, hxt⟩
          refine ⟨a :: pre, y, post, by rw [hL]; rfl, ?_, hy, ?_⟩
          · intro z hz
            rcases List.mem_cons.mp hz with rfl | hz
            · exact ha
            · exact hpre z hz
          · simp only [Conditions.Set, ha, if_false, hset, List.cons_append]
      · simp only [Conditions.Set, ha, if_false, List.cons_append]
        rw [ih3 (fun x hx => h x (List.mem_cons_of_mem _ hx))]

/-- An instance of C11: `Set` of a new condition of type B on the precedence
list replaces the second entry and leaves A and C where they are; `Set` of a
condition of type D appends it. -/
theorem Set_frame_witness :
    (∃ x ∈ precedenceExample, x.Type_ = (TrueCondition "B" "done" 7).Type_) ∧
    (∀ x ∈ precedenceExample, x.Type_ ≠ (TrueCondition "D" "done" 7).Type_) ∧
    (∃ pre x post, precedenceExample = pre ++ x :: post ∧
      (∀ y ∈ pre, y.Type_ ≠ (TrueCondition "B" "done" 7).Type_) ∧
      x.Type_ = (TrueCondition "B" "done" 7).Type_ ∧
      Conditions.Set precedenceExample (TrueCondition "B" "done" 7)
        = pre ++ TrueCondition "B" "done" 7 :: post) ∧
    Conditions.Set precedenceExample (TrueCondition "D" "done" 7)
      = precedenceExample ++ [TrueCondition "D" "done" 7] :=
  have h1 : ∃ x ∈ precedenceExample, x.Type_ = (TrueCondition "B" "done" 7).Type_ := by
    decide
  have h2 : ∀ x ∈ precedenceExample, x.Type_ ≠ (TrueCondition "D" "done" 7).Type_ := by
    decide
  ⟨h1, h2, (Set_frame precedenceExample (TrueCondition "B" "done" 7)).2.1 h1,
    (Set_frame precedenceExample (TrueCondition "D" "done" 7)).2.2 h2⟩

theorem Get_eq_find (L : Conditions) (t : ConditionType) :
    Conditions.Get L t = L.find? (fun x => x.Type_ = t) := by
  induction L with
  | nil => rfl
  | cons a rest ih =>
    by_cases ha : a.Type_ = t
    · simp [Conditions.Get, List.find?_cons, ha]
    · simp [Conditions.Get, List.find?_cons, ha, ih]

/-- C12: Absence is unknown. Without a condition of type `t`, `IsUnknown t`
is true and `IsTrue t` and `IsFalse t` are false; with one, each predicate
tells whether the status of the first entry of type `t` is its status, so
exactly one of the three holds. -/
theorem absence_is_unknown (L : Conditions) (t : ConditionType) :
    ((∀ x ∈ L, x.Type_ ≠ t) →
      Conditions.IsUnknown L t = true ∧ Conditions.IsTrue L t = false ∧
        Conditions.IsFalse L t = false) ∧
    (∀ x, L.find? (fun y => y.Type_ = t) = some x →
      (Conditions.IsTrue L t = true ↔ x.Status = ConditionTrue) ∧
      (Conditions.IsFalse L t = true ↔ x.Status = ConditionFalse) ∧
      (Conditions.IsUnknown L t = true ↔ x.Status = ConditionUnknown) ∧
      ((Conditions.IsTrue L t = true ∧ Conditions.IsFalse L t = false ∧
          Conditions.IsUnknown L t = false) ∨
        (Conditions.IsTrue L t = false ∧ Conditions.IsFalse L t = true ∧
          Conditions.IsUnknown L t = false) ∨
        (Conditions.IsTrue L t = false ∧ Conditions.IsFalse L t = false ∧
          Conditions.IsUnknown L t = true))) := by
  constructor
  · intro h
    have hnone : Conditions.Get L t = none := by
      rw [Get_eq_find, List.find?_eq_none]
      intro x hx hp
      simp only [decide_eq_true_eq] at hp
      exact h x hx hp
    simp [Conditions.IsUnknown, Conditions.IsTrue, Conditions.IsFalse, hnone]
  · intro x hx
    have hget : Conditions.Get L t = some x := by rw [Get_eq_find, hx]
    simp only [Conditions.IsUnknown, Conditions.IsTrue, Conditions.IsFalse, hget]
    cases x.Status <;> simp

/-- An instance of C12 on the precedence list: no condition of type D, and B,
the first entry of its type, is False. -/
theorem absence_is_unknown_witness :
    (∀ x ∈ precedenceExample, x.Type_ ≠ "D") ∧
    Conditions.IsUnknown precedenceExample "D" = true ∧
    Conditions.IsTrue precedenceExample "D" = false ∧
    Conditions.IsFalse precedenceExample "D" = false ∧
    Conditions.IsFalse precedenceExample "B" = true ∧
    Conditions.IsTrue precedenceExample "B" = false ∧
    Conditions.IsUnknown precedenceExample "B" = false := by
  have h : ∀ x ∈ precedenceExample, x.Type_ ≠ "D" := by decide
  obtain ⟨h1, h2, h3⟩ := (absence_is_unknown precedenceExample "D").1 h
  exact ⟨h, h1, h2, h3, by decide, by decide, by decide⟩

/-- C13: AllSubConditionIsTrue characterisation. `AllSubConditionIsTrue` is
true exactly when every condition of a type other than Ready has status
True; it is true on the empty list and on a list of Ready conditions only,
whatever their status. -/
theorem AllSubConditionIsTrue_iff (L : Conditions) :
    (Conditions.AllSubConditionIsTrue L = true ↔
      ∀ x ∈ L, x.Type_ ≠ ReadyCondition → x.Status = ConditionTrue) ∧
    Conditions.AllSubConditionIsTrue [] = true ∧
    ((∀ x ∈ L, x.Type_ = ReadyCondition) → Conditions.AllSubConditionIsTrue L = true) := by
  have key : ∀ L : Conditions, Conditions.AllSubConditionIsTrue L = true ↔
      ∀ x ∈ L, x.Type_ ≠ ReadyCondition → x.Status = ConditionTrue := by
    intro L
    induction L with
    | nil => simp [Conditions.AllSubConditionIsTrue]
    | cons a rest ih =>
      by_cases ha : a.Type_ = ReadyCondition
      · simp [Conditions.AllSubConditionIsTrue, ha, ih]
      · by_cases hs : a.Status = ConditionTrue
        · simp [Conditions.AllSubConditionIsTrue, ha, hs, ih]
        · simp [Conditions.AllSubConditionIsTrue, ha, hs]
  exact ⟨key L, rfl, fun h => (key L).mpr (fun x hx hne => absurd (h x hx) hne)⟩

/-- An instance of C13: a list holding only a Ready condition that is
False/Error. -/
theorem AllSubConditionIsTrue_iff_witness :
    (∀ x ∈ [FalseCondition ReadyCondition ErrorReason SeverityError "failed" [] 3],
      x.Type_ = ReadyCondition) ∧
    Conditions.AllSubConditionIsTrue
      [FalseCondition ReadyCondition ErrorReason SeverityError "failed" [] 3] = true :=
  have h : ∀ x ∈ [FalseCondition ReadyCondition ErrorReason SeverityError "failed" [] 3],
      x.Type_ = ReadyCondition := by decide
  ⟨h, (AllSubConditionIsTrue_iff _).2.2 h⟩

/-! ### `RestoreLastTransitionTimes` -/

theorem restoreEntry_eq (c : Condition) (saved : List Condition) (current : Condition) :
    restoreEntry c saved current
      = { current with
          LastTransitionTime :=
            match saved.reverse.find? (fun s => c.Type_ = s.Type_ ∧ c.Status = s.Status) with
            | some s => s.LastTransitionTime
            | none => current.LastTransitionTime } := by
  induction saved generalizing current with
  | nil => rfl
  | cons s rest ih =>
    rw [List.reverse_cons, List.find?_append]
    by_cases hs : c.Type_ = s.Type_ ∧ c.Status = s.Status
    · rw [restoreEntry, if_pos hs, ih]
      cases rest.reverse.find? (fun s => c.Type_ = s.Type_ ∧ c.Status = s.Status) with
      | some s' => rfl
      | none => simp [List.find?_cons, hs]
    · rw [restoreEntry, if_neg hs, ih]
      cases rest.reverse.find? (fun s => c.Type_ = s.Type_ ∧ c.Status = s.Status) with
      | some s' => rfl
      | none => simp [List.find?_cons, hs]

/-- C14: RestoreLastTransitionTimes restores exactly the unchanged statuses.
With a saved list, the list keeps its length; the condition at each index
that has a saved entry of its type and status ends with the time of the last
such entry in saved order, and a condition without such a saved entry keeps
its own time. -/
theorem RestoreLastTransitionTimes_spec (current saved : Conditions) :
    (RestoreLastTransitionTimes current (some saved)).length = current.length ∧
    ∀ (i : Nat) (c r : Condition), current[i]? = some c →
      (RestoreLastTransitionTimes current (some saved))[i]? = some r →
      ((∃ s ∈ saved, c.Type_ = s.Type_ ∧ c.Status = s.Status) →
        ∃ s, saved.reverse.find? (fun s => c.Type_ = s.Type_ ∧ c.Status = s.Status) = some s ∧
          r.LastTransitionTime = s.LastTransitionTime) ∧
      ((∀ s ∈ saved, ¬ (c.Type_ = s.Type_ ∧ c.Status = s.Status)) →
        r.LastTransitionTime = c.LastTransitionTime) := by
  refine ⟨by simp [RestoreLastTransitionTimes], ?_⟩
  intro i c r hc hr
  simp only [RestoreLastTransitionTimes, List.getElem?_map, hc, Option.map_some',
    Option.some.injEq] at hr
  subst hr
  rw [restoreEntry_eq]
  constructor
  · rintro ⟨s, hs, hm⟩
    have hsome : (saved.reverse.find?
        (fun s => c.Type_ = s.Type_ ∧ c.Status = s.Status)).isSome :=
      List.find?_isSome.mpr ⟨s, List.mem_reverse.mpr hs, by simpa using hm⟩
    obtain ⟨s', hs'⟩ := Option.isSome_iff_exists.mp hsome
    exact ⟨s', hs', by simp only [hs']⟩
  · intro hno
    have hnone : saved.reverse.find?
        (fun s => c.Type_ = s.Type_ ∧ c.Status = s.Status) = none := by
      rw [List.find?_eq_none]
      intro s hs hp
      simp only [decide_eq_true_eq] at hp
      exact hno s (List.mem_reverse.mp hs) hp
    simp only [hnone]

/-- The scenario of C14: with A True at time 10 saved, A True at time 20
ends with time 10, the time of the saved entry, and A False at time 20 keeps
time 20. -/
theorem RestoreLastTransitionTimes_spec_witness :
    (∃ s ∈ savedExample, "A" = s.Type_ ∧ ConditionTrue = s.Status) ∧
    (∀ s ∈ savedExample, ¬ ("A" = s.Type_ ∧ ConditionFalse = s.Status)) ∧
    (∃ r, (RestoreLastTransitionTimes restoredExample (some savedExample))[0]? = some r ∧
      r.LastTransitionTime = 10) ∧
    (∃ r, (RestoreLastTransitionTimes changedExample (some savedExample))[0]? = some r ∧
      r.LastTransitionTime = 20) := by
  have h1 : ∃ s ∈ savedExample, "A" = s.Type_ ∧ ConditionTrue = s.Status := by decide
  have h2 : ∀ s ∈ savedExample, ¬ ("A" = s.Type_ ∧ ConditionFalse = s.Status) := by decide
  have hr : (RestoreLastTransitionTimes restoredExample (some savedExample))[0]?
      = some (restoreEntry
          { Type_ := "A", Status := ConditionTrue, Severity := SeverityNone,
            LastTransitionTime := 20, Reason := "Ready", Message := "message of A" }
          savedExample
          { Type_ := "A", Status := ConditionTrue, Severity := SeverityNone,
            LastTransitionTime := 20, Reason := "Ready", Message := "message of A" }) := rfl
  have hc : (RestoreLastTransitionTimes changedExample (some savedExample))[0]?
      = some (restoreEntry
          { Type_ := "A", Status := ConditionFalse, Severity := SeverityError,
            LastTransitionTime := 20, Reason := "Error", Message := "A failed" }
          savedExample
          { Type_ := "A", Status := ConditionFalse, Severity := SeverityError,
            LastTransitionTime := 20, Reason := "Error", Message := "A failed" }) := rfl
  obtain ⟨s, hfind, hs⟩ :=
    ((RestoreLastTransitionTimes_spec restoredExample savedExample).2 0 _ _ rfl hr).1 h1
  have hk :=
    ((RestoreLastTransitionTimes_spec changedExample savedExample).2 0 _ _ rfl hc).2 h2
  have hlast : savedExample.reverse.find? (fun s => "A" = s.Type_ ∧ ConditionTrue = s.Status)
      = some { Type_ := "A", Status := ConditionTrue, Severity := SeverityNone,
               LastTransitionTime := 10, Reason := "Ready", Message := "message of A" } := by
    decide
  obtain rfl := Option.some.inj (hlast.symm.trans hfind)
  exact ⟨h1, h2, ⟨_, hr, hs⟩, ⟨_, hc, hk⟩⟩

/-! ### Severity of True and Unknown conditions -/

/-- C15: A True condition always carries severity None. An outcome of
`Mirror` with status True has severity None, and so has one with status
Unknown; `TrueCondition` and `UnknownCondition` build conditions of severity
None, and these are the conditions `MarkTrue` and `MarkUnknown` store. -/
theorem severity_none (L : Conditions) (t : ConditionType) (now : Time) (r : Condition)
    (hr : IsMirrorResult L t now r) :
    (r.Status = ConditionTrue → r.Severity = SeverityNone) ∧
    (r.Status = ConditionUnknown → r.Severity = SeverityNone) ∧
    (∀ t' message now', (TrueCondition t' message now').Status = ConditionTrue ∧
      (TrueCondition t' message now').Severity = SeverityNone) ∧
    (∀ t' message now', Conditions.Get (Conditions.MarkTrue L t' message now') t'
      = some (TrueCondition t' message now')) ∧
    (∀ t' reason message now',
      (UnknownCondition t' reason message now').Status = ConditionUnknown ∧
      (UnknownCondition t' reason message now').Severity = SeverityNone) ∧
    (∀ t' reason message now',
      Conditions.Get (Conditions.MarkUnknown L t' reason message now') t'
        = some (UnknownCondition t' reason message now')) := by
  obtain ⟨groups, _, rfl⟩ := hr
  refine ⟨?_, ?_, fun _ _ _ => ⟨rfl, rfl⟩, fun t' message now' => Get_Set L _,
    fun _ _ _ _ => ⟨rfl, rfl⟩, fun t' reason message now' => Get_Set L _⟩
  · simp only [mirrorOf]
    split
    · intro h; cases h
    · split
      · intro h; cases h
      · split
        · intro h; cases h
        · intro _; rfl
  · simp only [mirrorOf]
    split
    · intro h; cases h
    · split
      · intro h; cases h
      · split
        · intro _; rfl
        · intro h; cases h

/-- An instance of C15: the aggregate of the default scenario is True with
severity None, and the one of the Unknown scenario is Unknown with severity
None. -/
theorem severity_none_witness :
    (Conditions.Mirror defaultExample ReadyCondition 9).Status = ConditionTrue ∧
    (Conditions.Mirror defaultExample ReadyCondition 9).Severity = SeverityNone ∧
    (Conditions.Mirror unknownExample ReadyCondition 9).Status = ConditionUnknown ∧
    (Conditions.Mirror unknownExample ReadyCondition 9).Severity = SeverityNone :=
  have h1 : (Conditions.Mirror defaultExample ReadyCondition 9).Status = ConditionTrue := by
    decide
  have h2 : (Conditions.Mirror unknownExample ReadyCondition 9).Status
      = ConditionUnknown := by decide
  ⟨h1, (severity_none defaultExample ReadyCondition 9 _
      (Mirror_isResult defaultExample ReadyCondition 9)).1 h1,
    h2, (severity_none unknownExample ReadyCondition 9 _
      (Mirror_isResult unknownExample ReadyCondition 9)).2.1 h2⟩

/-! ### `AllSubConditionIsTrue` and `Mirror` -/

theorem AllSubConditionIsTrue_true (L : Conditions)
    (h : Conditions.AllSubConditionIsTrue L = true) :
    ∀ x ∈ L, x.Type_ ≠ ReadyCondition → x.Status = ConditionTrue := by
  induction L with
  | nil => simp
  | cons a rest ih =>
    intro x hx hne
    by_cases ha : a.Type_ = ReadyCondition
    · simp only [Conditions.AllSubConditionIsTrue, ha, if_true] at h
      rcases List.mem_cons.mp hx with rfl | hx
      · exact absurd ha hne
      · exact ih h x hx hne
    · by_cases hs : a.Status = ConditionTrue
      · simp only [Conditions.AllSubConditionIsTrue, ha, if_false, hs, ne_eq,
          not_true_eq_false] at h
        rcases List.mem_cons.mp hx with rfl | hx
        · exact hs
        · exact ih h x hx hne
      · simp [Conditions.AllSubConditionIsTrue, ha, hs] at h

/-- C21: AllSubConditionIsTrue is a sound fast path for Mirror but not a
complete one. When `AllSubConditionIsTrue` is true, every outcome of `Mirror`
has status True; the converse fails: on the list of one condition that is
False with severity Info, `Mirror` returns status True while
`AllSubConditionIsTrue` is false. -/
theorem AllSubConditionIsTrue_sound (L : Conditions) (t : ConditionType) (now : Time)
    (r : Condition) (hr : IsMirrorResult L t now r)
    (hall : Conditions.AllSubConditionIsTrue L = true) :
    r.Status = ConditionTrue ∧
    ((Conditions.Mirror infoExample t now).Status = ConditionTrue ∧
      IsMirrorResult infoExample t now (Conditions.Mirror infoExample t now) ∧
      Conditions.AllSubConditionIsTrue infoExample = false) := by
  refine ⟨?_, rfl, Mirror_isResult infoExample t now, rfl⟩
  have htrue := AllSubConditionIsTrue_true L hall
  obtain ⟨groups, hg, rfl⟩ := hr
  have hfe := firstRepresentative_pair L groups hg ConditionFalse SeverityError
  have hnone : L.find? (fun x => x.Type_ ≠ ReadyCondition ∧ x.Status = ConditionFalse ∧
      x.Severity = SeverityError) = none := by
    rw [List.find?_eq_none]
    intro x hx hp
    simp only [decide_eq_true_eq] at hp
    have hs := htrue x hx hp.1
    rw [hp.2.1] at hs
    cases hs
  rw [hnone] at hfe
  have hfw := firstRepresentative_pair L groups hg ConditionFalse SeverityWarning
  have hnone' : L.find? (fun x => x.Type_ ≠ ReadyCondition ∧ x.Status = ConditionFalse ∧
      x.Severity = SeverityWarning) = none := by
    rw [List.find?_eq_none]
    intro x hx hp
    simp only [decide_eq_true_eq] at hp
    have hs := htrue x hx hp.1
    rw [hp.2.1] at hs
    cases hs
  rw [hnone'] at hfw
  have hfu := firstRepresentative_unknown_none L groups hg (fun x hx hne hu => by
    have hs := htrue x hx hne
    rw [hu] at hs
    cases hs)
  simp only [mirrorOf, hfe, hfw, hfu]
  rfl

/-- An instance of C21: on the list A True, with a stale Ready condition that
is False/Error, `AllSubConditionIsTrue` is true and `Mirror` returns status
True. -/
theorem AllSubConditionIsTrue_sound_witness :
    Conditions.AllSubConditionIsTrue
      [FalseCondition ReadyCondition ErrorReason SeverityError "failed" [] 3,
        TrueCondition "A" "done" 4] = true ∧
    (Conditions.Mirror
      [FalseCondition ReadyCondition ErrorReason SeverityError "failed" [] 3,
        TrueCondition "A" "done" 4] ReadyCondition 9).Status = ConditionTrue :=
  have hall : Conditions.AllSubConditionIsTrue
      [FalseCondition ReadyCondition ErrorReason SeverityError "failed" [] 3,
        TrueCondition "A" "done" 4] = true := by decide
  ⟨hall, (AllSubConditionIsTrue_sound _ ReadyCondition 9 _ (Mirror_isResult _ _ _) hall).1⟩

/-! ### The frame of `RestoreLastTransitionTimes` -/

theorem foldl_invariant {α β : Type} (P : α → Prop) (f : α → β → α)
    (hstep : ∀ a b, P a → P (f a b)) (l : List β) (a : α) (ha : P a) :
    P (l.foldl f a) := by
  induction l generalizing a with
  | nil => exact ha
  | cons b rest ih => exact ih (f a b) (hstep a b ha)

theorem Slice.getElem?_elems (s : Slice) (m : Memory) (n : Nat) :
    (s.elems m)[n]? = if n < s.len then (m s.array)[s.offset + n]? else none := by
  simp [Slice.elems, List.getElem?_take, List.getElem?_drop]

theorem Slice.lt_len_of_get? (s : Slice) (m : Memory) (i : Nat) (c : Condition)
    (h : s.get? m i = some c) : i < s.len := by
  rw [Slice.get?, Slice.getElem?_elems] at h
  by_contra hlt
  simp [hlt] at h

/-- An assignment of a time changes no array but in the times. -/
theorem Slice.setTime_withoutTime (s : Slice) (m : Memory) (i : Nat) (t : Time) (a : Address) :
    (s.setTime m i t a).map Condition.withoutTime = (m a).map Condition.withoutTime := by
  unfold Slice.setTime
  by_cases ha : a = s.array
  · subst ha
    rw [Function.update_same]
    apply List.ext_getElem?
    intro n
    rw [List.getElem?_map, List.getElem?_map, List.getElem?_modify]
    cases (m s.array)[n]? with
    | none => rfl
    | some c =>
      by_cases hn : s.offset + i = n <;> simp [hn, Condition.withoutTime]
  · rw [Function.update_noteq ha]

/-- An assignment of a time to an element of `s` changes no element of a
slice apart from `s`. -/
theorem Slice.setTime_apart (s u : Slice) (m : Memory) (i : Nat) (t : Time)
    (hapart : s.Apart u) (hi : i < s.len) :
    u.elems (s.setTime m i t) = u.elems m := by
  apply List.ext_getElem?
  intro n
  rw [Slice.getElem?_elems, Slice.getElem?_elems]
  by_cases hn : n < u.len
  · simp only [hn, if_true]
    unfold Slice.setTime
    by_cases ha : u.array = s.array
    · rw [ha, Function.update_same, List.getElem?_modify]
      have hne : ¬ s.offset + i = u.offset + n := by
        rcases hapart with h | h | h
        · exact absurd ha.symm h
        · omega
        · omega
      cases (m s.array)[u.offset + n]? with
      | none => rfl
      | some c => simp [hne]
    · rw [Function.update_noteq ha]
  · simp [hn]

/-- An assignment of a time to the element `i` of `s`, seen in the list of the
elements of `s`. -/
theorem Slice.setTime_elems (s : Slice) (m : Memory) (i : Nat) (t : Time) :
    s.elems (s.setTime m i t)
      = (s.elems m).modify (fun c => { c with LastTransitionTime := t }) i := by
  apply List.ext_getElem?
  intro n
  rw [Slice.getElem?_elems, List.getElem?_modify, Slice.getElem?_elems]
  unfold Slice.setTime
  rw [Function.update_same, List.getElem?_modify]
  by_cases hn : n < s.len
  · simp only [hn, if_true]
    cases (m s.array)[s.offset + n]? with
    | none => rfl
    | some c =>
      by_cases hin : i = n
      · subst hin
        simp
      · have : ¬ s.offset + i = s.offset + n := by omega
        simp [hin, this]
  · simp [hn]

theorem restoreInner_withoutTime (c : Condition) (conditions savedConditions : Slice) (i : Nat)
    (m : Memory) (j : Nat) (a : Address) :
    (restoreInner c conditions savedConditions i m j a).map Condition.withoutTime
      = (m a).map Condition.withoutTime := by
  unfold restoreInner
  cases savedConditions.get? m j with
  | none => rfl
  | some saved =>
    by_cases hs : c.Type_ = saved.Type_ ∧ c.Status = saved.Status
    · simp only [hs, and_self, if_true]
      exact Slice.setTime_withoutTime _ _ _ _ _
    · simp only [hs, if_false]

theorem restoreOuter_withoutTime (conditions savedConditions : Slice) (m : Memory) (i : Nat)
    (a : Address) :
    (restoreOuter conditions savedConditions m i a).map Condition.withoutTime
      = (m a).map Condition.withoutTime := by
  unfold restoreOuter
  cases conditions.get? m i with
  | none => rfl
  | some c =>
    exact foldl_invariant
      (fun m' => (m' a).map Condition.withoutTime = (m a).map Condition.withoutTime)
      _ (fun m' j h => (restoreInner_withoutTime c conditions savedConditions i m' j a).trans h)
      _ m rfl

theorem RestoreLastTransitionTimesPtr_withoutTime (m : Memory) (conditions : Slice)
    (savedConditions : Option Slice) (a : Address) :
    (RestoreLastTransitionTimesPtr m conditions savedConditions a).map Condition.withoutTime
      = (m a).map Condition.withoutTime := by
  unfold RestoreLastTransitionTimesPtr
  cases savedConditions with
  | none => rfl
  | some saved =>
    exact foldl_invariant
      (fun m' => (m' a).map Condition.withoutTime = (m a).map Condition.withoutTime)
      _ (fun m' i h => (restoreOuter_withoutTime conditions saved m' i a).trans h)
      _ m rfl

theorem restoreInner_apart (c : Condition) (conditions savedConditions u : Slice) (i : Nat)
    (m : Memory) (j : Nat) (hapart : conditions.Apart u) (hi : i < conditions.len) :
    u.elems (restoreInner c conditions savedConditions i m j) = u.elems m := by
  unfold restoreInner
  split
  · rfl
  · split
    · exact Slice.setTime_apart _ _ _ _ _ hapart hi
    · rfl

theorem restoreOuter_apart (conditions savedConditions u : Slice) (m : Memory) (i : Nat)
    (hapart : conditions.Apart u) :
    u.elems (restoreOuter conditions savedConditions m i) = u.elems m := by
  unfold restoreOuter
  split
  · rfl
  · rename_i c hc
    have hi : i < conditions.len := Slice.lt_len_of_get? _ _ _ _ hc
    exact foldl_invariant (fun m' => u.elems m' = u.elems m)
      _ (fun m' j h => (restoreInner_apart c conditions savedConditions u i m' j hapart hi).trans h)
      _ m rfl

theorem RestoreLastTransitionTimesPtr_apart (m : Memory) (conditions : Slice)
    (savedConditions : Option Slice) (u : Slice) (hapart : conditions.Apart u) :
    u.elems (RestoreLastTransitionTimesPtr m conditions savedConditions) = u.elems m := by
  unfold RestoreLastTransitionTimesPtr
  cases savedConditions with
  | none => rfl
  | some saved =>
    exact foldl_invariant (fun m' => u.elems m' = u.elems m)
      _ (fun m' i h => (restoreOuter_apart conditions saved u m' i hapart).trans h)
      _ m rfl

theorem RestoreLastTransitionTimesPtr_empty (m : Memory) (conditions saved : Slice)
    (hempty : saved.elems m = []) :
    RestoreLastTransitionTimesPtr m conditions (some saved) = m := by
  unfold RestoreLastTransitionTimesPtr
  refine foldl_invariant (fun m' => m' = m) _ ?_ _ m rfl
  intro m' i h
  subst h
  unfold restoreOuter
  split
  · rfl
  · refine foldl_invariant (fun m'' => m'' = m') _ ?_ _ m' rfl
    intro m'' j h
    subst h
    simp [restoreInner, Slice.get?, hempty]

theorem restoreEntry_append (c s : Condition) (saved : List Condition) (current : Condition) :
    restoreEntry c (saved ++ [s]) current
      = if c.Type_ = s.Type_ ∧ c.Status = s.Status then
          { restoreEntry c saved current with LastTransitionTime := s.LastTransitionTime }
        else restoreEntry c saved current := by
  induction saved generalizing current with
  | nil => simp [restoreEntry]
  | cons a rest ih =>
    by_cases ha : c.Type_ = a.Type_ ∧ c.Status = a.Status
    · rw [List.cons_append, restoreEntry, if_pos ha, ih, restoreEntry, if_pos ha]
    · rw [List.cons_append, restoreEntry, if_neg ha, ih, restoreEntry, if_neg ha]

/-- The inner loop for the index `i`, run for the first `n` saved conditions,
when the saved slice is apart from the current one: the saved conditions are
as before and the entry `i` has gone through `restoreEntry`. -/
theorem restoreInner_foldl (c : Condition) (conditions savedConditions : Slice) (i : Nat)
    (m : Memory) (hapart : conditions.Apart savedConditions) (hi : i < conditions.len)
    (n : Nat) :
    savedConditions.elems
        ((List.range n).foldl (restoreInner c conditions savedConditions i) m)
      = savedConditions.elems m ∧
    conditions.elems ((List.range n).foldl (restoreInner c conditions savedConditions i) m)
      = (conditions.elems m).modify
          (fun cur => restoreEntry c ((savedConditions.elems m).take n) cur) i := by
  induction n with
  | zero =>
    refine ⟨rfl, ?_⟩
    rw [List.range_zero, List.foldl_nil]
    apply List.ext_getElem?
    intro k
    rw [List.getElem?_modify]
    cases (conditions.elems m)[k]? with
    | none => rfl
    | some cur => by_cases hk : i = k <;> simp [hk, restoreEntry]
  | succ n ih =>
    obtain ⟨ih1, ih2⟩ := ih
    rw [List.range_succ, List.foldl_append, List.foldl_cons, List.foldl_nil]
    generalize (List.range n).foldl (restoreInner c conditions savedConditions i) m = mn at ih1 ih2
    unfold restoreInner
    rw [Slice.get?, ih1, List.take_succ]
    cases hs : (savedConditions.elems m)[n]? with
    | none => simpa using ⟨ih1, ih2⟩
    | some s =>
      by_cases hm : c.Type_ = s.Type_ ∧ c.Status = s.Status
      · simp only [hm, and_self, if_true, Option.toList_some]
        refine ⟨(Slice.setTime_apart _ _ _ _ _ hapart hi).trans ih1, ?_⟩
        rw [Slice.setTime_elems, ih2]
        apply List.ext_getElem?
        intro k
        simp only [List.getElem?_modify]
        cases (conditions.elems m)[k]? with
        | none => rfl
        | some cur =>
          by_cases hk : i = k
          · simp [hk, restoreEntry_append, hm]
          · simp [hk]
      · simp only [hm, if_false, Option.toList_some]
        refine ⟨ih1, ?_⟩
        rw [ih2]
        apply List.ext_getElem?
        intro k
        simp only [List.getElem?_modify]
        cases (conditions.elems m)[k]? with
        | none => rfl
        | some cur =>
          by_cases hk : i = k
          · simp [hk, restoreEntry_append, hm]
          · simp [hk]

theorem Slice.length_elems_le (s : Slice) (m : Memory) : (s.elems m).length ≤ s.len := by
  simp [Slice.elems, List.length_take]

/-- The outer loop run for the first `k` indices, when the saved slice is
apart from the current one. -/
theorem restoreOuter_foldl (conditions savedConditions : Slice) (m : Memory)
    (hapart : conditions.Apart savedConditions) (k : Nat) :
    savedConditions.elems ((List.range k).foldl (restoreOuter conditions savedConditions) m)
      = savedConditions.elems m ∧
    ∀ n, (conditions.elems
        ((List.range k).foldl (restoreOuter conditions savedConditions) m))[n]?
      = if n < k then
          ((conditions.elems m)[n]?).map (fun c => restoreEntry c (savedConditions.elems m) c)
        else (conditions.elems m)[n]? := by
  induction k with
  | zero => exact ⟨rfl, fun n => by simp⟩
  | succ k ih =>
    obtain ⟨ih1, ih2⟩ := ih
    rw [List.range_succ, List.foldl_append, List.foldl_cons, List.foldl_nil]
    generalize (List.range k).foldl (restoreOuter conditions savedConditions) m = mk at ih1 ih2
    unfold restoreOuter
    have hk := ih2 k
    simp only [lt_irrefl, if_false] at hk
    rw [Slice.get?, hk]
    cases hc : (conditions.elems m)[k]? with
    | none =>
      refine ⟨ih1, fun n => ?_⟩
      rw [ih2 n]
      by_cases hn : n < k
      · have : n < k + 1 := by omega
        simp [hn, this]
      · by_cases hnk : n = k
        · subst hnk
          simp [hc]
        · have : ¬ n < k + 1 := by omega
          simp [hn, this]
    | some c =>
      have hi : k < conditions.len := by
        have h1 := Slice.length_elems_le conditions m
        have h2 : k < (conditions.elems m).length := by
          rcases List.getElem?_eq_some_iff.mp hc with ⟨h, _⟩
          exact h
        omega
      obtain ⟨h1, h2⟩ :=
        restoreInner_foldl c conditions savedConditions k mk hapart hi savedConditions.len
      simp only []
      refine ⟨h1.trans ih1, fun n => ?_⟩
      rw [h2, ih1, List.take_of_length_le (Slice.length_elems_le savedConditions m),
        List.getElem?_modify, ih2 n]
      by_cases hn : n < k
      · have h3 : n < k + 1 := by omega
        have h4 : ¬ k = n := by omega
        simp only [hn, h3, if_true, h4, if_false]
        cases (conditions.elems m)[n]? <;> rfl
      · by_cases hnk : n = k
        · subst hnk
          simp [hc]
        · have h3 : ¬ n < k + 1 := by omega
          have h4 : ¬ k = n := fun e => hnk e.symm
          simp only [hn, h3, if_false, h4]
          cases (conditions.elems m)[n]? <;> rfl

/-- On slices that share no element the function on the memory does what
`RestoreLastTransitionTimes` does on the two lists. -/
theorem RestoreLastTransitionTimesPtr_eq (m : Memory) (conditions saved : Slice)
    (hapart : conditions.Apart saved) :
    conditions.elems (RestoreLastTransitionTimesPtr m conditions (some saved))
      = RestoreLastTransitionTimes (conditions.elems m) (some (saved.elems m)) := by
  unfold RestoreLastTransitionTimesPtr RestoreLastTransitionTimes
  apply List.ext_getElem?
  intro n
  rw [(restoreOuter_foldl conditions saved m hapart conditions.len).2 n, List.getElem?_map]
  by_cases hn : n < conditions.len
  · simp [hn]
  · have h1 := Slice.length_elems_le conditions m
    have h2 : (conditions.elems m)[n]? = none := List.getElem?_eq_none (by omega)
    simp [hn, h2]

/-- The claim of C22 fails on the call `RestoreLastTransitionTimes(&l, &l)`,
where the saved list is the current list: `l` holds two conditions of type A
and status True, at the times 10 and 30; after the call both have the time
30, so the saved list has been modified. -/
theorem RestoreLastTransitionTimes_aliased_counterexample :
    aliasedSliceExample.elems aliasedMemoryExample
      = [ { Type_ := "A", Status := ConditionTrue, Severity := SeverityNone,
            LastTransitionTime := 10, Reason := "Ready", Message := "message of A" },
          { Type_ := "A", Status := ConditionTrue, Severity := SeverityNone,
            LastTransitionTime := 30, Reason := "Ready", Message := "message of A" } ] ∧
    aliasedSliceExample.elems
        (RestoreLastTransitionTimesPtr aliasedMemoryExample aliasedSliceExample
          (some aliasedSliceExample))
      = [ { Type_ := "A", Status := ConditionTrue, Severity := SeverityNone,
            LastTransitionTime := 30, Reason := "Ready", Message := "message of A" },
          { Type_ := "A", Status := ConditionTrue, Severity := SeverityNone,
            LastTransitionTime := 30, Reason := "Ready", Message := "message of A" } ] ∧
    aliasedSliceExample.elems
        (RestoreLastTransitionTimesPtr aliasedMemoryExample aliasedSliceExample
          (some aliasedSliceExample))
      ≠ aliasedSliceExample.elems aliasedMemoryExample := by
  decide

/-- C22, as the code has it: RestoreLastTransitionTimes changes nothing but
timestamps. After the call every list in memory, the current list among them,
has the length it had, and the condition at each index keeps its type,
status, severity, reason and message; a saved list that shares no element
with the current list is not modified, and the current list is then the one
`RestoreLastTransitionTimes` gives on the two lists; with a nil saved list,
and with an empty one, the memory is left as it was. -/
theorem RestoreLastTransitionTimes_frame (m : Memory) (conditions : Slice)
    (savedConditions : Option Slice) :
    (∀ s : Slice,
      (s.elems (RestoreLastTransitionTimesPtr m conditions savedConditions)).length
        = (s.elems m).length) ∧
    (∀ (s : Slice) (i : Nat) (c r : Condition), (s.elems m)[i]? = some c →
      (s.elems (RestoreLastTransitionTimesPtr m conditions savedConditions))[i]? = some r →
      r.Type_ = c.Type_ ∧ r.Status = c.Status ∧ r.Severity = c.Severity ∧
        r.Reason = c.Reason ∧ r.Message = c.Message) ∧
    (∀ saved : Slice, savedConditions = some saved → conditions.Apart saved →
      saved.elems (RestoreLastTransitionTimesPtr m conditions savedConditions)
          = saved.elems m ∧
        conditions.elems (RestoreLastTransitionTimesPtr m conditions savedConditions)
          = RestoreLastTransitionTimes (conditions.elems m) (some (saved.elems m))) ∧
    RestoreLastTransitionTimesPtr m conditions none = m ∧
    (∀ saved : Slice, savedConditions = some saved → saved.elems m = [] →
      RestoreLastTransitionTimesPtr m conditions savedConditions = m) := by
  have hmap : ∀ s : Slice,
      (s.elems (RestoreLastTransitionTimesPtr m conditions savedConditions)).map
          Condition.withoutTime
        = (s.elems m).map Condition.withoutTime := by
    intro s
    simp only [Slice.elems, List.map_take, List.map_drop,
      RestoreLastTransitionTimesPtr_withoutTime]
  refine ⟨?_, ?_, ?_, rfl, ?_⟩
  · intro s
    have h := congrArg List.length (hmap s)
    simpa using h
  · intro s i c r hc hr
    have h := congrArg (fun l => l[i]?) (hmap s)
    simp only [List.getElem?_map, hc, hr, Option.map_some', Option.some.injEq,
      Condition.withoutTime] at h
    cases c
    cases r
    simp only [Condition.mk.injEq] at h
    obtain ⟨h1, h2, h3, _, h5, h6⟩ := h
    exact ⟨h1, h2, h3, h5, h6⟩
  · intro saved hsaved hapart
    subst hsaved
    exact ⟨RestoreLastTransitionTimesPtr_apart m conditions (some saved) saved hapart,
      RestoreLastTransitionTimesPtr_eq m conditions saved hapart⟩
  · intro saved hsaved hempty
    subst hsaved
    exact RestoreLastTransitionTimesPtr_empty m conditions saved hempty

/-- An instance of C22 as the code has it: the current list, at address 0,
holds A True at the time 20; the saved list, at address 1, holds two entries
for A True, with another severity, reason and message. The saved list is not
modified and the current entry takes the time 30 of the later one and keeps
its own severity, reason and message. -/
theorem RestoreLastTransitionTimes_frame_witness :
    currentSliceExample.Apart savedSliceExample ∧
    savedSliceExample.elems
        (RestoreLastTransitionTimesPtr apartMemoryExample currentSliceExample
          (some savedSliceExample))
      = savedSliceExample.elems apartMemoryExample ∧
    currentSliceExample.elems apartMemoryExample
      = [ { Type_ := "A", Status := ConditionTrue, Severity := SeverityNone,
            LastTransitionTime := 20, Reason := "Ready", Message := "message of A" } ] ∧
    currentSliceExample.elems
        (RestoreLastTransitionTimesPtr apartMemoryExample currentSliceExample
          (some savedSliceExample))
      = [ { Type_ := "A", Status := ConditionTrue, Severity := SeverityNone,
            LastTransitionTime := 30, Reason := "Ready", Message := "message of A" } ] :=
  have hapart : currentSliceExample.Apart savedSliceExample := Or.inl (by decide)
  ⟨hapart,
    ((RestoreLastTransitionTimes_frame apartMemoryExample currentSliceExample
      (some savedSliceExample)).2.2.1 savedSliceExample rfl hapart).1,
    by decide, by decide⟩

end condition

namespace helper

/-! ### The patch helper -/

theorem mapGet_mapSet {V : Type} (m : GoMap V) (k k' : String) (v : V) :
    mapGet (mapSet m k v) k' = if k = k' then some v else mapGet m k' := by
  induction m with
  | nil => simp [mapSet, mapGet]
  | cons a rest ih =>
    obtain ⟨a1, a2⟩ := a
    by_cases h1 : a1 = k
    · subst h1
      by_cases h2 : a1 = k' <;> simp [mapSet, mapGet, h2]
    · by_cases h2 : a1 = k'
      · subst h2
        have h3 : ¬ k = a1 := fun e => h1 e.symm
        simp [mapSet, mapGet, h1, h3]
      · simp [mapSet, mapGet, h1, h2, ih]

theorem mapGet_eq_none {V : Type} (m : GoMap V) (k : String) :
    mapGet m k = none ↔ k ∉ m.map Prod.fst := by
  induction m with
  | nil => simp [mapGet]
  | cons a rest ih =>
    obtain ⟨a1, a2⟩ := a
    by_cases h1 : a1 = k
    · simp [mapGet, h1]
    · have h2 : ¬ k = a1 := fun e => h1 e.symm
      simp [mapGet, h1, h2, ih]

theorem mapGet_foldl_true {V : Type} (patchDiff : GoMap V) (init : GoMap Bool) (k : String) :
    mapGet (patchDiff.foldl (fun res member => mapSet res member.1 true) init) k
      = if k ∈ patchDiff.map Prod.fst then some true else mapGet init k := by
  induction patchDiff generalizing init with
  | nil => simp
  | cons a rest ih =>
    rw [List.foldl_cons, ih, mapGet_mapSet]
    by_cases h1 : k ∈ rest.map Prod.fst
    · simp [h1]
    · by_cases h2 : a.1 = k
      · simp [h1, h2]
      · have h3 : ¬ k = a.1 := fun e => h2 e.symm
        simp [h1, h2, h3]

theorem patchStatus_eq (rt : Runtime) (changes : GoMap Bool) (patch obj : Object)
    (issued : List Write) :
    patchStatus rt changes patch obj issued
      = (issued ++ (if flag changes "status" = true then [statusWrite obj patch] else []),
          if flag changes "status" = true ∧
            ¬ (rt.StatusPatch obj patch = none ∨ IsNotFound (rt.StatusPatch obj patch) = true)
          then rt.StatusPatch obj patch else none) := by
  unfold patchStatus
  by_cases hs : flag changes "status" = true
  · simp only [hs, if_true, true_and]
    cases hans : rt.StatusPatch obj patch with
    | none => simp [IsConflict, IsNotFound]
    | some e =>
      cases hk : e.kind <;> simp [IsConflict, IsNotFound, hk]
  · simp [hs]

theorem patchSections_eq (rt : Runtime) (changes : GoMap Bool) (patch obj : Object) :
    patchSections rt changes patch obj
      = if flag changes "metadata" = true ∧
          ¬ (rt.Patch obj patch = none ∨ IsNotFound (rt.Patch obj patch) = true)
        then ([bodyWrite obj patch], rt.Patch obj patch)
        else patchStatus rt changes patch
          (if flag changes "metadata" = true then rt.afterPatch obj patch else obj)
          (if flag changes "metadata" = true then [bodyWrite obj patch] else []) := by
  unfold patchSections
  by_cases hm : flag changes "metadata" = true
  · simp only [hm, if_true, true_and]
    cases hans : rt.Patch obj patch with
    | none => simp [IsConflict, IsNotFound]
    | some e =>
      cases hk : e.kind <;> simp [IsConflict, IsNotFound, hk]
  · simp [hm]

theorem afterPatch_of_none (rt : Runtime) (obj base : Object)
    (h : rt.Patch obj base = none) : rt.afterPatch obj base = rt.Patched obj base := by
  simp [Runtime.afterPatch, h]

theorem afterPatch_of_error (rt : Runtime) (obj base : Object)
    (h : rt.Patch obj base ≠ none) : rt.afterPatch obj base = obj := by
  simp [Runtime.afterPatch, h]

theorem afterPatch_of_notFound (rt : Runtime) (obj base : Object)
    (h : IsNotFound (rt.Patch obj base) = true) : rt.afterPatch obj base = obj := by
  apply afterPatch_of_error
  intro hn
  rw [hn] at h
  exact absurd h (by decide)

theorem SetAfter_beforeObject (h : Helper) (rt : Runtime) (obj : Object) :
    (Helper.SetAfter h rt obj).1.beforeObject = h.beforeObject := by
  unfold Helper.SetAfter
  split
  · rfl
  · split <;> rfl

theorem PatchInstance_eq (h h' : Helper) (rt : Runtime) (obj : Object)
    (hset : Helper.SetAfter h rt obj = (h', none)) :
    Helper.PatchInstance h rt obj
      = (h', patchSections rt h'.changes h.beforeObject obj) := by
  have hb := SetAfter_beforeObject h rt obj
  rw [hset] at hb
  simp only at hb
  simp only [Helper.PatchInstance, hset, Helper.GetChanges, Helper.GetBeforeObject, hb]

/-- The claim of C16 fails on the cycle of `afterBothExample`: both sections
are flagged and the store answers the body write with a conflict;
`PatchInstance` returns the conflict and has issued the body write only, no
write to the status subresource. -/
theorem PatchInstance_conflict_counterexample :
    flag (Helper.PatchInstance helperExample conflictRuntime afterBothExample).1.changes
      "metadata" = true ∧
    flag (Helper.PatchInstance helperExample conflictRuntime afterBothExample).1.changes
      "status" = true ∧
    IsConflict (conflictRuntime.Patch afterBothExample beforeExample) = true ∧
    (Helper.PatchInstance helperExample conflictRuntime afterBothExample).2.2
      = some conflictError ∧
    (Helper.PatchInstance helperExample conflictRuntime afterBothExample).2.1
      = [bodyWrite afterBothExample beforeExample] ∧
    ¬ ∃ w ∈ (Helper.PatchInstance helperExample conflictRuntime afterBothExample).2.1,
      w.subresource = Subresource.status := by
  decide

/-- C16, as the code has it: in a cycle where `SetAfter` succeeds and the
body is flagged, a conflict answer to the body write is returned at once and
the body write is the only write issued; a body write answered with success
or not-found is followed by the status write when the status is flagged,
issued for the object as the body write left it (the answer of the store
after a success, the object as it was after not-found), and a conflict
answer to that write is returned; the body write is issued whatever the store
answers to the status write. -/
theorem PatchInstance_conflict (h h' : Helper) (rt : Runtime) (obj : Object)
    (hset : Helper.SetAfter h rt obj = (h', none))
    (hm : flag h'.changes "metadata" = true) :
    (IsConflict (rt.Patch obj h.beforeObject) = true →
      (Helper.PatchInstance h rt obj).2
        = ([bodyWrite obj h.beforeObject], rt.Patch obj h.beforeObject)) ∧
    ((rt.Patch obj h.beforeObject = none ∨ IsNotFound (rt.Patch obj h.beforeObject) = true) →
      flag h'.changes "status" = true →
      (Helper.PatchInstance h rt obj).2.1
          = [bodyWrite obj h.beforeObject,
              statusWrite (rt.afterPatch obj h.beforeObject) h.beforeObject] ∧
        (IsConflict (rt.StatusPatch (rt.afterPatch obj h.beforeObject) h.beforeObject) = true →
          (Helper.PatchInstance h rt obj).2.2
            = rt.StatusPatch (rt.afterPatch obj h.beforeObject) h.beforeObject)) ∧
    (rt.Patch obj h.beforeObject = none →
      rt.afterPatch obj h.beforeObject = rt.Patched obj h.beforeObject) ∧
    (IsNotFound (rt.Patch obj h.beforeObject) = true →
      rt.afterPatch obj h.beforeObject = obj) ∧
    bodyWrite obj h.beforeObject ∈ (Helper.PatchInstance h rt obj).2.1 := by
  rw [PatchInstance_eq h h' rt obj hset]
  simp only [patchSections_eq, patchStatus_eq, hm, if_true, true_and]
  refine ⟨?_, ?_, afterPatch_of_none rt obj h.beforeObject,
    afterPatch_of_notFound rt obj h.beforeObject, ?_⟩
  · intro hc
    have hfatal : ¬ (rt.Patch obj h.beforeObject = none ∨
        IsNotFound (rt.Patch obj h.beforeObject) = true) := by
      cases hans : rt.Patch obj h.beforeObject with
      | none => simp [hans, IsConflict] at hc
      | some e =>
        simp only [hans, IsConflict, decide_eq_true_eq] at hc
        simp [IsNotFound, hc]
    simp only [hfatal, not_false_eq_true, if_true]
  · intro hok hs
    simp only [hok, not_true_eq_false, if_false, hs, if_true, List.singleton_append, true_and]
    generalize rt.afterPatch obj h.beforeObject = obj'
    intro hc
    have hfatal : ¬ (rt.StatusPatch obj' h.beforeObject = none ∨
        IsNotFound (rt.StatusPatch obj' h.beforeObject) = true) := by
      cases hans : rt.StatusPatch obj' h.beforeObject with
      | none => simp [hans, IsConflict] at hc
      | some e =>
        simp only [hans, IsConflict, decide_eq_true_eq] at hc
        simp [IsNotFound, hc]
    simp only [hfatal, not_false_eq_true, if_true]
  · split <;> simp

/-- An instance of C16 as the code has it: the cycle of `afterBothExample`
with a conflict answer to the body write. -/
theorem PatchInstance_conflict_witness :
    Helper.SetAfter helperExample conflictRuntime afterBothExample
      = ({ helperExample with
            after := some afterBothExample,
            changes := [("metadata", true), ("status", true)] }, none) ∧
    (Helper.PatchInstance helperExample conflictRuntime afterBothExample).2
        = ([bodyWrite afterBothExample beforeExample], some conflictError) :=
  have hset : Helper.SetAfter helperExample conflictRuntime afterBothExample
      = ({ helperExample with
            after := some afterBothExample,
            changes := [("metadata", true), ("status", true)] }, none) := by decide
  ⟨hset,
    (PatchInstance_conflict helperExample _ conflictRuntime afterBothExample hset
      (by decide)).1 (by decide)⟩

theorem answer_bodyWrite (rt : Runtime) (obj base : Object) :
    rt.answer (bodyWrite obj base) = rt.Patch obj base := rfl

theorem answer_statusWrite (rt : Runtime) (obj base : Object) :
    rt.answer (statusWrite obj base) = rt.StatusPatch obj base := rfl

/-- C17: PatchInstance outcome classification. In a cycle where `SetAfter`
succeeds, `PatchInstance` returns nil exactly when every write it issued was
answered with success or not-found; otherwise the last write it issued is
the first one answered with a conflict or another error, and that answer is
what it returns, as it is. A not-found answer to the body write does not stop
the status write. -/
theorem PatchInstance_outcome (h h' : Helper) (rt : Runtime) (obj : Object)
    (hset : Helper.SetAfter h rt obj = (h', none)) :
    ((Helper.PatchInstance h rt obj).2.2 = none ↔
      ∀ w ∈ (Helper.PatchInstance h rt obj).2.1,
        rt.answer w = none ∨ IsNotFound (rt.answer w) = true) ∧
    ((Helper.PatchInstance h rt obj).2.2 ≠ none →
      ∃ pre w, (Helper.PatchInstance h rt obj).2.1 = pre ++ [w] ∧
        (∀ u ∈ pre, rt.answer u = none ∨ IsNotFound (rt.answer u) = true) ∧
        ¬ (rt.answer w = none ∨ IsNotFound (rt.answer w) = true) ∧
        (Helper.PatchInstance h rt obj).2.2 = rt.answer w) ∧
    (flag h'.changes "metadata" = true →
      IsNotFound (rt.Patch obj h.beforeObject) = true →
      flag h'.changes "status" = true →
      statusWrite obj h.beforeObject ∈ (Helper.PatchInstance h rt obj).2.1) := by
  rw [PatchInstance_eq h h' rt obj hset]
  simp only [patchSections_eq, patchStatus_eq]
  have hsame : IsNotFound (rt.Patch obj h.beforeObject) = true →
      (if flag h'.changes "metadata" = true then rt.afterPatch obj h.beforeObject else obj)
        = obj := by
    intro hnf
    rw [afterPatch_of_notFound rt obj h.beforeObject hnf, ite_self]
  generalize (if flag h'.changes "metadata" = true then rt.afterPatch obj h.beforeObject
    else obj) = obj' at hsame
  refine ⟨?_, ?_, ?_⟩ <;>
  cases hm : flag h'.changes "metadata" <;>
  cases hs : flag h'.changes "status" <;>
  by_cases hb : (rt.Patch obj h.beforeObject = none ∨
      IsNotFound (rt.Patch obj h.beforeObject) = true) <;>
  by_cases hst : (rt.StatusPatch obj' h.beforeObject = none ∨
      IsNotFound (rt.StatusPatch obj' h.beforeObject) = true) <;>
  simp only [hb, hst, if_true, if_false, true_and, false_and, and_true, and_false,
    not_true_eq_false, not_false_eq_true, List.nil_append, List.append_nil,
    List.singleton_append, Bool.false_eq_true, List.mem_cons, List.mem_singleton,
    List.not_mem_nil, forall_eq_or_imp, forall_eq, or_false, false_or,
    answer_bodyWrite, answer_statusWrite, false_implies, implies_true, true_implies,
    ne_eq, IsEmpty.forall_iff] <;>
  first
    | done
    | tauto
    | (intro _; exact ⟨[], _, rfl, by simp, by simpa [answer_bodyWrite] using hb, rfl⟩)
    | (intro _; exact ⟨[], _, rfl, by simp, by simpa [answer_statusWrite] using hst, rfl⟩)
    | (intro _
       exact ⟨[_], _, rfl, by simpa [answer_bodyWrite] using hb,
         by simpa [answer_statusWrite] using hst, rfl⟩)

/-- An instance of C17: in the cycle of `afterBothExample` the store answers
the body write with not-found and the status write with another error; both
writes are issued and the error of the status write is returned. -/
theorem PatchInstance_outcome_witness :
    Helper.SetAfter helperExample notFoundRuntime afterBothExample
      = ({ helperExample with
            after := some afterBothExample,
            changes := [("metadata", true), ("status", true)] }, none) ∧
    statusWrite afterBothExample beforeExample ∈
      (Helper.PatchInstance helperExample notFoundRuntime afterBothExample).2.1 ∧
    (Helper.PatchInstance helperExample notFoundRuntime afterBothExample).2.2 = some otherError :=
  have hset : Helper.SetAfter helperExample notFoundRuntime afterBothExample
      = ({ helperExample with
            after := some afterBothExample,
            changes := [("metadata", true), ("status", true)] }, none) := by decide
  ⟨hset,
    (PatchInstance_outcome helperExample _ notFoundRuntime afterBothExample hset).2.2
      (by decide) (by decide) (by decide),
    by decide⟩

/-- The claim of C18 fails on the cycle of `afterSpecExample`: the change set
flags the section spec, a section other than status, and `PatchInstance`
issues no write. -/
theorem PatchInstance_spec_counterexample :
    flag (Helper.PatchInstance helperExample specRuntime afterSpecExample).1.changes "spec" = true ∧
    (Helper.PatchInstance helperExample specRuntime afterSpecExample).2.1 = [] ∧
    bodyWrite afterSpecExample beforeExample ∉
      (Helper.PatchInstance helperExample specRuntime afterSpecExample).2.1 := by
  decide

/-- C18, as the code has it: in a cycle where `SetAfter` succeeds,
`PatchInstance` issues the body write, the merge patch of the object based on
the before-object, exactly when the change set flags the section metadata; it
issues at most one, and none when no section other than status is flagged. -/
theorem PatchInstance_body_write (h h' : Helper) (rt : Runtime) (obj : Object)
    (hset : Helper.SetAfter h rt obj = (h', none)) :
    (bodyWrite obj h.beforeObject ∈ (Helper.PatchInstance h rt obj).2.1 ↔
      flag h'.changes "metadata" = true) ∧
    (∀ w ∈ (Helper.PatchInstance h rt obj).2.1, w.subresource = Subresource.body →
      w = bodyWrite obj h.beforeObject) ∧
    ((∀ k, k ≠ "status" → flag h'.changes k = false) →
      ∀ w ∈ (Helper.PatchInstance h rt obj).2.1, w.subresource ≠ Subresource.body) := by
  rw [PatchInstance_eq h h' rt obj hset]
  simp only [patchSections_eq, patchStatus_eq]
  refine ⟨?_, ?_, ?_⟩
  · cases hm : flag h'.changes "metadata" <;>
    cases hs : flag h'.changes "status" <;>
    by_cases hb : (rt.Patch obj h.beforeObject = none ∨
        IsNotFound (rt.Patch obj h.beforeObject) = true) <;>
    simp [hb, bodyWrite, statusWrite]
  · cases hm : flag h'.changes "metadata" <;>
    cases hs : flag h'.changes "status" <;>
    by_cases hb : (rt.Patch obj h.beforeObject = none ∨
        IsNotFound (rt.Patch obj h.beforeObject) = true) <;>
    simp [hb, bodyWrite, statusWrite]
  · intro hno
    have hm : flag h'.changes "metadata" = false := hno "metadata" (by decide)
    cases hs : flag h'.changes "status" <;> simp [hm, statusWrite]

/-- An instance of C18 as the code has it: the cycle of `afterBothExample`
flags metadata and the body write is issued. -/
theorem PatchInstance_body_write_witness :
    Helper.SetAfter helperExample bothRuntime afterBothExample
      = ({ helperExample with
            after := some afterBothExample,
            changes := [("metadata", true), ("status", true)] }, none) ∧
    bodyWrite afterBothExample beforeExample ∈
      (Helper.PatchInstance helperExample bothRuntime afterBothExample).2.1 :=
  have hset : Helper.SetAfter helperExample bothRuntime afterBothExample
      = ({ helperExample with
            after := some afterBothExample,
            changes := [("metadata", true), ("status", true)] }, none) := by decide
  ⟨hset,
    (PatchInstance_body_write helperExample _ bothRuntime afterBothExample hset).1.mpr
      (by decide)⟩

/-- The claim of C19 fails on cycles in which `SetAfter` fails. With patch
data that cannot be computed the change set is left empty, so it flags
neither section, and `PatchInstance` returns the error instead of nil. With a
conversion that fails on a helper whose change set flags the status section
from an earlier `SetAfter`, no body write is issued and no status write
either. -/
theorem PatchInstance_status_write_counterexample :
    (flag (Helper.PatchInstance helperExample failingDataRuntime afterStatusExample).1.changes
        "metadata" = false ∧
      flag (Helper.PatchInstance helperExample failingDataRuntime afterStatusExample).1.changes
        "status" = false ∧
      (Helper.PatchInstance helperExample failingDataRuntime afterStatusExample).2.2 ≠ none) ∧
    (flag (Helper.PatchInstance flaggedHelperExample failingConversionRuntime
        afterStatusExample).1.changes "status" = true ∧
      (Helper.PatchInstance flaggedHelperExample failingConversionRuntime
        afterStatusExample).2.1 = [] ∧
      ¬ ∃ w ∈ (Helper.PatchInstance flaggedHelperExample failingConversionRuntime
          afterStatusExample).2.1, w.subresource = Subresource.status) := by
  decide

/-- C19, as the code has it: Status write is separate and flag-driven. In a
cycle where `SetAfter` succeeds and the body write is not issued or is
answered with success or not-found, the writes issued are the body write when
metadata is flagged, followed by the status write when status is flagged, so
a write to the status subresource is issued exactly when status is flagged;
it is another call than the body write, made after it for the object as the
body write left it; every write is based on the before-object; and with
neither metadata nor status flagged no write is issued and nil is returned. -/
theorem PatchInstance_status_write (h h' : Helper) (rt : Runtime) (obj : Object)
    (hset : Helper.SetAfter h rt obj = (h', none)) :
    ((flag h'.changes "metadata" = false ∨ rt.Patch obj h.beforeObject = none ∨
        IsNotFound (rt.Patch obj h.beforeObject) = true) →
      (Helper.PatchInstance h rt obj).2.1
          = (if flag h'.changes "metadata" = true then [bodyWrite obj h.beforeObject] else [])
            ++ (if flag h'.changes "status" = true then
                [statusWrite
                  (if flag h'.changes "metadata" = true then rt.afterPatch obj h.beforeObject
                    else obj)
                  h.beforeObject]
              else []) ∧
        ((∃ w ∈ (Helper.PatchInstance h rt obj).2.1, w.subresource = Subresource.status) ↔
          flag h'.changes "status" = true)) ∧
    (∀ w ∈ (Helper.PatchInstance h rt obj).2.1, w.subresource = Subresource.status →
      w = statusWrite
          (if flag h'.changes "metadata" = true then rt.afterPatch obj h.beforeObject else obj)
          h.beforeObject ∧
        w ≠ bodyWrite obj h.beforeObject) ∧
    (∀ w ∈ (Helper.PatchInstance h rt obj).2.1, w.base = h.beforeObject) ∧
    (flag h'.changes "metadata" = false → flag h'.changes "status" = false →
      (Helper.PatchInstance h rt obj).2 = ([], none)) := by
  rw [PatchInstance_eq h h' rt obj hset]
  simp only [patchSections_eq, patchStatus_eq]
  generalize (if flag h'.changes "metadata" = true then rt.afterPatch obj h.beforeObject
    else obj) = obj'
  refine ⟨?_, ?_, ?_, ?_⟩
  · intro hpre
    cases hm : flag h'.changes "metadata" <;>
    cases hs : flag h'.changes "status" <;>
    by_cases hb : (rt.Patch obj h.beforeObject = none ∨
        IsNotFound (rt.Patch obj h.beforeObject) = true) <;>
    first
      | (simp [hb, bodyWrite, statusWrite]; done)
      | (simp [hm] at hpre; exact absurd hpre hb)
  · cases hm : flag h'.changes "metadata" <;>
    cases hs : flag h'.changes "status" <;>
    by_cases hb : (rt.Patch obj h.beforeObject = none ∨
        IsNotFound (rt.Patch obj h.beforeObject) = true) <;>
    simp [hb, bodyWrite, statusWrite]
  · cases hm : flag h'.changes "metadata" <;>
    cases hs : flag h'.changes "status" <;>
    by_cases hb : (rt.Patch obj h.beforeObject = none ∨
        IsNotFound (rt.Patch obj h.beforeObject) = true) <;>
    simp [hb, bodyWrite, statusWrite]
  · intro hm hs
    simp [hm, hs]

/-- Instances of C19 as the code has it. The cycle of `afterStatusExample`
flags status only: the status write is the one write issued, based on the
before-object. The cycle of `afterBothExample` flags metadata and status and
the store accepts the body write: the status write follows it, issued for the
answer of the store to the body write. -/
theorem PatchInstance_status_write_witness :
    Helper.SetAfter helperExample statusRuntime afterStatusExample
      = ({ helperExample with
            after := some afterStatusExample, changes := [("status", true)] }, none) ∧
    (Helper.PatchInstance helperExample statusRuntime afterStatusExample).2.1
      = [statusWrite afterStatusExample beforeExample] ∧
    ((∃ w ∈ (Helper.PatchInstance helperExample statusRuntime afterStatusExample).2.1,
        w.subresource = Subresource.status) ↔
      flag [("status", true)] "status" = true) ∧
    (Helper.PatchInstance helperExample bothRuntime afterBothExample).2.1
      = [bodyWrite afterBothExample beforeExample,
          statusWrite (storedAnswer afterBothExample beforeExample) beforeExample] :=
  have hset : Helper.SetAfter helperExample statusRuntime afterStatusExample
      = ({ helperExample with
            after := some afterStatusExample, changes := [("status", true)] }, none) := by
    decide
  have hpre : flag [("status", true)] "metadata" = false ∨
      statusRuntime.Patch afterStatusExample helperExample.beforeObject = none ∨
      IsNotFound (statusRuntime.Patch afterStatusExample
        helperExample.beforeObject) = true := Or.inl (by decide)
  ⟨hset, by decide,
    ((PatchInstance_status_write helperExample _ statusRuntime afterStatusExample hset).1 hpre).2,
    by decide⟩

/-! ### The change set -/

theorem fieldValue_setField (o : Object) (p q : FieldPath) (v : String) :
    fieldValue (setField o p v) q = if p = q then some v else fieldValue o q := by
  induction o with
  | nil => simp [setField, fieldValue]
  | cons a rest ih =>
    obtain ⟨a1, a2⟩ := a
    by_cases h1 : a1 = p
    · subst h1
      by_cases h2 : a1 = q <;> simp [setField, fieldValue, h2]
    · by_cases h2 : a1 = q
      · subst h2
        have h3 : ¬ p = a1 := fun e => h1 e.symm
        simp [setField, fieldValue, h1, h3]
      · simp [setField, fieldValue, h1, h2, ih]

theorem fieldValue_eq_none (o : Object) (p : FieldPath) :
    fieldValue o p = none ↔ ∀ e ∈ o, e.1 ≠ p := by
  induction o with
  | nil => simp [fieldValue]
  | cons a rest ih =>
    obtain ⟨a1, a2⟩ := a
    by_cases h1 : a1 = p
    · simp [fieldValue, h1]
    · simp [fieldValue, h1, ih]

/-- The entries of the merge patch are the field paths at which the two
resources differ. -/
theorem mem_changedFields (before after : Object) (p : FieldPath) :
    (∃ v, (p, v) ∈ changedFields before after) ↔ fieldValue before p ≠ fieldValue after p := by
  constructor
  · rintro ⟨v, hv⟩
    simp only [changedFields, List.mem_append, List.mem_filterMap] at hv
    rcases hv with ⟨e, _, he⟩ | ⟨e, hmem, he⟩
    · split at he
      · cases he
      · rename_i hne
        simp only [Option.some.injEq, Prod.mk.injEq] at he
        rw [← he.1]
        exact hne
    · split at he
      · rename_i hnone
        simp only [Option.some.injEq, Prod.mk.injEq] at he
        rw [← he.1, hnone]
        intro hb
        exact (fieldValue_eq_none before e.1).mp hb e hmem rfl
      · cases he
  · intro hne
    by_cases ha : fieldValue after p = none
    · have hb : fieldValue before p ≠ none := fun hb => hne (hb.trans ha.symm)
      rw [Ne, fieldValue_eq_none] at hb
      push_neg at hb
      obtain ⟨e, hmem, he⟩ := hb
      refine ⟨none, ?_⟩
      simp only [changedFields, List.mem_append, List.mem_filterMap]
      right
      exact ⟨e, hmem, by simp [he, ha]⟩
    · have ha' := ha
      rw [fieldValue_eq_none] at ha'
      push_neg at ha'
      obtain ⟨e, hmem, he⟩ := ha'
      refine ⟨fieldValue after p, ?_⟩
      simp only [changedFields, List.mem_append, List.mem_filterMap]
      left
      exact ⟨e, hmem, by simp [he, hne]⟩

theorem mem_keys_iff {V : Type} (m : GoMap V) (k : String) :
    k ∈ m.map Prod.fst ↔ mapGet m k ≠ none := by
  rw [Ne, mapGet_eq_none, not_not]

theorem mem_keys_addMember (members : GoMap (List PatchEntry)) (key k : String)
    (entry : PatchEntry) :
    k ∈ (addMember members key entry).map Prod.fst ↔ key = k ∨ k ∈ members.map Prod.fst := by
  rw [mem_keys_iff, mem_keys_iff]
  unfold addMember
  split <;> rw [mapGet_mapSet] <;> by_cases hk : key = k <;> simp [hk]

theorem mem_keys_members (entries : List PatchEntry) (init : GoMap (List PatchEntry))
    (k : String) :
    k ∈ (entries.foldl (fun members e =>
        match e.1 with
        | [] => members
        | key :: rest => addMember members key (rest, e.2)) init).map Prod.fst
      ↔ k ∈ init.map Prod.fst ∨ ∃ e ∈ entries, ∃ rest, e.1 = k :: rest := by
  induction entries generalizing init with
  | nil => simp
  | cons a tl ih =>
    rw [List.foldl_cons, ih]
    obtain ⟨ap, av⟩ := a
    cases ap with
    | nil => simp
    | cons key rest =>
      simp only [mem_keys_addMember, List.mem_cons, exists_eq_or_imp, List.cons.injEq,
        exists_and_left, exists_eq', and_true]
      tauto

/-- The top-level keys of the merge patch are the top-level sections with a
field at which the two resources differ. -/
theorem mem_topLevelKeys_mergePatch (before after : Object) (k : String) :
    k ∈ topLevelKeys (mergePatch before after)
      ↔ ∃ rest, fieldValue before (k :: rest) ≠ fieldValue after (k :: rest) := by
  simp only [mergePatch, topLevelKeys, mem_keys_members, List.map_nil, List.not_mem_nil,
    false_or]
  constructor
  · rintro ⟨e, he, rest, hp⟩
    refine ⟨rest, (mem_changedFields before after (k :: rest)).mp ⟨e.2, ?_⟩⟩
    rw [← hp]
    exact he
  · rintro ⟨rest, hne⟩
    obtain ⟨v, hv⟩ := (mem_changedFields before after (k :: rest)).mpr hne
    exact ⟨(k :: rest, v), hv, rest, rfl⟩

/-- The change set `calculateChanges` returns holds the top-level keys of the
patch the library returned, each with the value true. -/
theorem calculateChanges_keys (h : Helper) (rt : Runtime) (after : Object) (diff : PatchData)
    (hData : rt.Data h.beforeObject after = Except.ok diff)
    (patchDiff : GoMap (List PatchEntry)) (hdiff : Unmarshal diff = Except.ok patchDiff) :
    ∃ changes, Helper.calculateChanges h rt after = Except.ok changes ∧
      ∀ k, mapGet changes k = if k ∈ patchDiff.map Prod.fst then some true else none := by
  refine ⟨_, by simp only [Helper.calculateChanges, hData, hdiff]; rfl, ?_⟩
  intro k
  rw [mapGet_foldl_true]
  rfl

/-- C20: Change-set correctness of SetAfter / calculateChanges. When the
library returns a patch object, `calculateChanges` succeeds and `SetAfter`
stores its result: the change set holds a key, always with the value true,
exactly when the key is a top-level key of the patch. When the patch is the
merge patch from the before-object to the after-object, a key is flagged
exactly when the two objects differ at a field of that top-level section; so
a change of one field below status flags status and no other section, a
change of one field below another section flags that section and not status,
and a change of both flags both. -/
theorem change_set_correct (h : Helper) (rt : Runtime) (after : Object)
    (members : GoMap (List PatchEntry))
    (hData : rt.Data h.beforeObject after = Except.ok (PatchData.object members)) :
    ∃ changes, Helper.calculateChanges h rt after = Except.ok changes ∧
      (∀ u, rt.ToUnstructured after = Except.ok u →
        Helper.SetAfter h rt after = ({ h with after := some u, changes := changes }, none)) ∧
      (∀ k, (mapGet changes k = some true ↔ k ∈ topLevelKeys (PatchData.object members)) ∧
          mapGet changes k ≠ some false) ∧
      (PatchData.object members = mergePatch h.beforeObject after →
        (∀ k, flag changes k = true ↔
          ∃ rest, fieldValue h.beforeObject (k :: rest) ≠ fieldValue after (k :: rest)) ∧
        (∀ rest v, fieldValue h.beforeObject ("status" :: rest) ≠ some v →
          after = setField h.beforeObject ("status" :: rest) v →
          flag changes "status" = true ∧ ∀ k, k ≠ "status" → flag changes k = false) ∧
        (∀ k rest v, k ≠ "status" → fieldValue h.beforeObject (k :: rest) ≠ some v →
          after = setField h.beforeObject (k :: rest) v →
          flag changes k = true ∧ flag changes "status" = false) ∧
        (∀ k rest v rest' v', k ≠ "status" →
          fieldValue h.beforeObject (k :: rest) ≠ some v →
          fieldValue h.beforeObject ("status" :: rest') ≠ some v' →
          after = setField (setField h.beforeObject (k :: rest) v) ("status" :: rest') v' →
          flag changes k = true ∧ flag changes "status" = true)) := by
  obtain ⟨changes, hcalc, hkeys⟩ :=
    calculateChanges_keys h rt after (PatchData.object members) hData members rfl
  refine ⟨changes, hcalc, ?_, ?_, ?_⟩
  · intro u hu
    have hcalc' : Helper.calculateChanges { h with after := some u } rt after
        = Except.ok changes := hcalc
    simp only [Helper.SetAfter, ToUnstructured, hu, hcalc']
  · intro k
    rw [hkeys]
    simp only [topLevelKeys]
    split <;> simp_all
  intro hmodel
  have hflag : ∀ k, flag changes k = true ↔
      ∃ rest, fieldValue h.beforeObject (k :: rest) ≠ fieldValue after (k :: rest) := by
    intro k
    rw [← mem_topLevelKeys_mergePatch, ← hmodel, flag, hkeys]
    simp only [topLevelKeys]
    split <;> simp_all
  have hflag' : ∀ k, flag changes k = false ↔
      ∀ rest, fieldValue h.beforeObject (k :: rest) = fieldValue after (k :: rest) := by
    intro k
    rw [← Bool.not_eq_true, hflag]
    push_neg
    rfl
  refine ⟨hflag, ?_, ?_, ?_⟩
  · intro rest v hne hafter
    constructor
    · rw [hflag]
      exact ⟨rest, by rw [hafter, fieldValue_setField]; simpa using hne⟩
    · intro k hk
      rw [hflag']
      intro rest'
      rw [hafter, fieldValue_setField]
      have hp : ¬ ("status" :: rest = k :: rest') := by
        intro e
        exact hk (List.cons_eq_cons.mp e).1.symm
      simp [hp]
  · intro k rest v hk hne hafter
    constructor
    · rw [hflag]
      exact ⟨rest, by rw [hafter, fieldValue_setField]; simpa using hne⟩
    · rw [hflag']
      intro rest'
      rw [hafter, fieldValue_setField]
      have hp : ¬ (k :: rest = "status" :: rest') := by
        intro e
        exact hk (List.cons_eq_cons.mp e).1
      simp [hp]
  · intro k rest v rest' v' hk hne hne' hafter
    have hp : ¬ ("status" :: rest' = k :: rest) := by
      intro e
      exact hk (List.cons_eq_cons.mp e).1.symm
    constructor
    · rw [hflag]
      refine ⟨rest, ?_⟩
      rw [hafter, fieldValue_setField, if_neg hp, fieldValue_setField]
      simpa using hne
    · rw [hflag]
      refine ⟨rest', ?_⟩
      rw [hafter, fieldValue_setField]
      simpa using hne'

/-- An instance of C20: from `beforeExample` to `afterStatusExample` one
field below status changes; the merge patch has the one top-level member
status, and `SetAfter` stores the change set that flags status and nothing
else. -/
theorem change_set_correct_witness :
    (exampleRuntime none none).Data helperExample.beforeObject afterStatusExample
      = Except.ok (PatchData.object [("status", [(["observedGeneration"], some "2")])]) ∧
    PatchData.object [("status", [(["observedGeneration"], some "2")])]
      = mergePatch helperExample.beforeObject afterStatusExample ∧
    afterStatusExample
      = setField helperExample.beforeObject ["status", "observedGeneration"] "2" ∧
    Helper.SetAfter helperExample (exampleRuntime none none) afterStatusExample
      = ({ helperExample with
            after := some afterStatusExample, changes := [("status", true)] }, none) ∧
    (flag [("status", true)] "status" = true ∧
      ∀ k, k ≠ "status" → flag [("status", true)] k = false) := by
  have hData : (exampleRuntime none none).Data helperExample.beforeObject afterStatusExample
      = Except.ok (PatchData.object [("status", [(["observedGeneration"], some "2")])]) := rfl
  have hmodel : PatchData.object [("status", [(["observedGeneration"], some "2")])]
      = mergePatch helperExample.beforeObject afterStatusExample := rfl
  have hafter : afterStatusExample
      = setField helperExample.beforeObject ["status", "observedGeneration"] "2" := by
    decide
  obtain ⟨changes, hcalc, _, _, hdiffer⟩ :=
    change_set_correct helperExample (exampleRuntime none none) afterStatusExample _ hData
  have hchanges : Helper.calculateChanges helperExample (exampleRuntime none none)
      afterStatusExample = Except.ok [("status", true)] := rfl
  rw [hchanges] at hcalc
  cases hcalc
  exact ⟨hData, hmodel, hafter, by decide,
    (hdiffer hmodel).2.1 ["observedGeneration"] "2" (by decide) hafter⟩

end helper
